import Mathlib

/-!
Verification of the text-to-structured-value extraction pipeline of the
immune-inflammatory-report repository (`src/immune_inflam_index/extractor.py`
and `src/immune_inflam_index/demographic_extractor.py`).

The Python functions are shallowly embedded over `List Char`.  Numeric values
(Python floats holding cell counts) are modelled as exact decimals (`Dec`,
interpreted in `ℚ` by `Dec.toRat`); every numeric literal appearing in the
claims is exactly representable, so no float-rounding issue is material to
any claim.  Regular expressions are
embedded as hand-written matchers that implement the exact pattern the source
uses (leftmost-match search, greedy quantifiers; greediness is deterministic
here because no continuation of a greedy piece can consume a character of the
same class).  Python's `re.IGNORECASE` is modelled by ASCII lowercasing, and
`\d` / `\s` by the ASCII digit / whitespace classes, which agree with Python
on every input any claim mentions.  `datetime.now().year` (read by
`extract_test_date`) is passed explicitly as a `currentYear` parameter, and
`fuzz.partial_ratio` (an external library) as an explicit similarity-function
parameter `sim`.
-/

namespace ExtractPipeline

abbrev Chars := List Char

/-- Exact decimal number: `num / 10 ^ scale`.  Every numeric capture of the
source's patterns is a nonnegative decimal literal, and every arithmetic step
of the source (only multiplication by 1000) is exact on decimals, so this
represents the source's float values exactly on all inputs the claims touch
(kernel-reducible, unlike `ℚ` arithmetic). -/
structure Dec where
  num : Nat
  scale : Nat
  deriving DecidableEq, Repr

/-- Rational value of a `Dec`. -/
def Dec.toRat (d : Dec) : ℚ := (d.num : ℚ) / (10 : ℚ) ^ d.scale

/-- Multiplication by 1000 (the only arithmetic `parse_value_with_unit` and
`extract_reference_ranges` perform). -/
def Dec.mul1000 (d : Dec) : Dec := ⟨d.num * 1000, d.scale⟩

/-- ASCII lowercasing, modelling `str.lower()` on the characters that occur in
the source's patterns and unit labels (non-ASCII such as 'µ', '³', '®' are
fixed points of `str.lower()` as well). -/
def asciiLowerChar (c : Char) : Char :=
  if 'A' ≤ c ∧ c ≤ 'Z' then Char.ofNat (c.toNat + 32) else c

def lowerStr (s : Chars) : Chars := s.map asciiLowerChar

def lowerString (s : String) : String := ⟨lowerStr s.data⟩

/-- Python `\d` (ASCII part). -/
def isDigitC (c : Char) : Bool :=
  ['0', '1', '2', '3', '4', '5', '6', '7', '8', '9'].contains c

/-- Python `\s` (ASCII part): space, tab, newline, carriage return,
vertical tab, form feed. -/
def isPySpace (c : Char) : Bool :=
  [' ', '\t', '\n', '\r', '\x0b', '\x0c'].contains c

/-- Python `str.strip()`: drop leading and trailing whitespace. -/
def stripChars (s : Chars) : Chars :=
  ((s.dropWhile isPySpace).reverse.dropWhile isPySpace).reverse

/-- `text.replace(",", "")`. -/
def removeCommas (s : Chars) : Chars := s.filter (fun c => c ≠ ',')

/-- `","`-removal at the `String` level (used to state claim C10). -/
def removeCommasStr (s : String) : String := ⟨removeCommas s.data⟩

/-- Does `l` start with `n` (exact characters)? -/
def leadsWith : Chars → Chars → Bool
  | [], _ => true
  | _ :: _, [] => false
  | a :: n, b :: l => a == b && leadsWith n l

/-- Python's substring test `n in l`. -/
def containsSub (n : Chars) : Chars → Bool
  | [] => n.isEmpty
  | l@(_ :: t) => leadsWith n l || containsSub n t

/-- Numeric value of a digit string (most significant first). -/
def digitsToNat (ds : Chars) : Nat :=
  ds.foldl (fun a c => 10 * a + (c.toNat - 48)) 0

/-- Value of the float literal `ip "." fp` (or just `ip` when `fp = []`).
The captures of `(\d+\.?\d*)` always parse this way. -/
def numVal (ip fp : Chars) : Dec :=
  ⟨digitsToNat ip * 10 ^ fp.length + digitsToNat fp, fp.length⟩

/-- Matcher for the capture group `(\d+\.?\d*)` at the start of `s`:
greedy digits, optional dot, greedy digits.  Returns the captured value and
the rest of the input.  (No continuation in any pattern of the source can
consume a digit or a dot, so greedy matching without backtracking is exact.) -/
def matchNumber (s : Chars) : Option (Dec × Chars) :=
  let ip := s.takeWhile isDigitC
  if ip.isEmpty then none
  else
    match s.dropWhile isDigitC with
    | '.' :: r2 => some (numVal ip (r2.takeWhile isDigitC), r2.dropWhile isDigitC)
    | r1 => some (numVal ip [], r1)

/-- Match one character case-insensitively. -/
def chCI (c : Char) : Chars → Option Chars
  | [] => none
  | a :: r => if asciiLowerChar a = asciiLowerChar c then some r else none

/-- Match one exact character. -/
def chEq (c : Char) : Chars → Option Chars
  | [] => none
  | a :: r => if a = c then some r else none

/-- Match a literal case-insensitively (models `re.IGNORECASE` literals). -/
def strCI : Chars → Chars → Option Chars
  | [], s => some s
  | _ :: _, [] => none
  | a :: n, b :: s => if asciiLowerChar b = asciiLowerChar a then strCI n s else none

/-- `\s*`. -/
def skipSpaces (s : Chars) : Chars := s.dropWhile isPySpace

/-! ### `parse_value_with_unit` (extractor.py lines 12-73)

The source tries eight regular expressions in a fixed order; on the first
match it reads the captured float (which never fails to parse) and then
decides the unit by substring tests on the whole cleaned text. -/

/-- Char class `[IO0S]` under `re.IGNORECASE`. -/
def isIOSChar (c : Char) : Bool :=
  ['i', 'o', '0', 's'].contains (asciiLowerChar c)

/-- Common prefix `(\d+\.?\d*)\s*x` of the four "x10"-family patterns. -/
def pX (tail : Chars → Option Chars) (s : Chars) : Option (Dec × Chars) :=
  match matchNumber s with
  | none => none
  | some (v, s1) =>
    match chCI 'x' (skipSpaces s1) with
    | none => none
    | some s2 => (tail s2).map (fun r => (v, r))

/-- Tail of `(\d+\.?\d*)\s*x[IO0S]+\^?\s*/\s*L`. -/
def xiosTail (s : Chars) : Option Chars :=
  if (s.takeWhile isIOSChar).isEmpty then none
  else
    let s1 := s.dropWhile isIOSChar
    let s2 := match s1 with | '^' :: r => r | _ => s1
    (chEq '/' (skipSpaces s2)).bind (fun s3 => chCI 'l' (skipSpaces s3))

/-- Tail of `(\d+\.?\d*)\s*x\s*10[³³^3]\s*/\s*L`. -/
def x10SupTail (s : Chars) : Option Chars :=
  match strCI ['1', '0'] (skipSpaces s) with
  | none => none
  | some s1 =>
    match s1 with
    | c :: r =>
      if c = '³' ∨ c = '^' ∨ c = '3' then
        (chEq '/' (skipSpaces r)).bind (fun s3 => chCI 'l' (skipSpaces s3))
      else none
    | [] => none

/-- Tail of `(\d+\.?\d*)\s*x\s*10\^?\s*3\s*/\s*L`. -/
def x10C3Tail (s : Chars) : Option Chars :=
  match strCI ['1', '0'] (skipSpaces s) with
  | none => none
  | some s1 =>
    let s2 := match s1 with | '^' :: r => r | _ => s1
    match chEq '3' (skipSpaces s2) with
    | none => none
    | some s3 => (chEq '/' (skipSpaces s3)).bind (fun s4 => chCI 'l' (skipSpaces s4))

/-- Tail of `(\d+\.?\d*)\s*x\s*10[®©]\s*/\s*L`. -/
def x10RegTail (s : Chars) : Option Chars :=
  match strCI ['1', '0'] (skipSpaces s) with
  | none => none
  | some s1 =>
    match s1 with
    | c :: r =>
      if c = '®' ∨ c = '©' then
        (chEq '/' (skipSpaces r)).bind (fun s3 => chCI 'l' (skipSpaces s3))
      else none
    | [] => none

/-- `(\d+\.?\d*)\s*(?:cells\s*)?/\s*[µu]L`.  (If the literal `cells` is
present it must be taken: skipping it leaves the scan at `c`, which can never
match the following `/`, so committing is exact.) -/
def pCells (s : Chars) : Option (Dec × Chars) :=
  match matchNumber s with
  | none => none
  | some (v, s1) =>
    let s2 := skipSpaces s1
    let s3 := match strCI ['c', 'e', 'l', 'l', 's'] s2 with
              | some r => skipSpaces r
              | none => s2
    match chEq '/' s3 with
    | none => none
    | some s4 =>
      match skipSpaces s4 with
      | c :: r =>
        if c = 'µ' ∨ asciiLowerChar c = 'u' then (chCI 'l' r).map (fun r2 => (v, r2))
        else none
      | [] => none

/-- `(\d+\.?\d*)\s*K\s*/\s*[µu]L`. -/
def pK (s : Chars) : Option (Dec × Chars) :=
  match matchNumber s with
  | none => none
  | some (v, s1) =>
    match chCI 'k' (skipSpaces s1) with
    | none => none
    | some s2 =>
      match chEq '/' (skipSpaces s2) with
      | none => none
      | some s3 =>
        match skipSpaces s3 with
        | c :: r =>
          if c = 'µ' ∨ asciiLowerChar c = 'u' then (chCI 'l' r).map (fun r2 => (v, r2))
          else none
        | [] => none

/-- `^(\d+\.?\d*)$` (anchored; `$` also matches just before a final newline). -/
def bareNumber (t : Chars) : Option Dec :=
  match matchNumber t with
  | some (v, r) => if r = [] ∨ r = ['\n'] then some v else none
  | none => none

/-- `(\d+\.?\d*)\s*\([^\)]+\)`. -/
def pParen (s : Chars) : Option (Dec × Chars) :=
  match matchNumber s with
  | none => none
  | some (v, s1) =>
    match chEq '(' (skipSpaces s1) with
    | none => none
    | some s2 =>
      if (s2.takeWhile (fun c => c ≠ ')')).isEmpty then none
      else (chEq ')' (s2.dropWhile (fun c => c ≠ ')'))).map (fun r => (v, r))

/-- `re.search`: try the matcher at every position, leftmost first; return the
capture of the first match. -/
def searchFor (m : Chars → Option (Dec × Chars)) : Chars → Option Dec
  | [] => (m []).map (fun p => p.1)
  | s@(_ :: t) =>
    match m s with
    | some (v, _) => some v
    | none => searchFor m t

/-- The source's eight patterns in their priority order; capture of the first
pattern that matches anywhere. -/
def firstPatternValue (t : Chars) : Option Dec :=
  (searchFor (pX xiosTail) t) <|>
  (searchFor (pX x10SupTail) t) <|>
  (searchFor (pX x10C3Tail) t) <|>
  (searchFor (pX x10RegTail) t) <|>
  (searchFor pCells t) <|>
  (searchFor pK t) <|>
  (bareNumber t) <|>
  (searchFor pParen t)

/-- `any(char in text.lower() for char in ["x10", "x 10", "xio", "xios",
"x io", "®", "©"])`. -/
def hasX10Marker (lt : Chars) : Bool :=
  containsSub "x10".data lt || containsSub "x 10".data lt ||
  containsSub "xio".data lt || containsSub "xios".data lt ||
  containsSub "x io".data lt || containsSub "®".data lt || containsSub "©".data lt

/-- Body of `parse_value_with_unit` on the cleaned text. -/
def parseValueCore (t : Chars) : Option Dec × Option String :=
  match firstPatternValue t with
  | none => (none, none)
  | some v =>
    let lt := lowerStr t
    if hasX10Marker lt then (some v.mul1000, some "x10³/L")
    else if containsSub ['k', '/'] lt then (some v.mul1000, some "K/µL")
    else if containsSub "/µl".data lt || containsSub "/ul".data lt then
      (some v, some "cells/µL")
    else (some v.mul1000, some "x10³/L (assumed)")

/-- `parse_value_with_unit(text)`: clean (`strip` then remove commas), then
first-match over the ordered pattern list, then unit resolution. -/
def parse_value_with_unit (text : String) : Option Dec × Option String :=
  parseValueCore (removeCommas (stripChars text.data))

/-! ### Generic "best candidate, strict improvement" fold

Both `find_field_value` and the demographic extractors keep a running
`best_match` / `best_confidence` pair and replace it only on strictly greater
confidence, so ties keep the candidate found first.  `bestFold_aux` proves
once and for all that such a fold returns the first candidate of maximal
confidence. -/

/-- One step of the source's `if confidence > best_confidence:` update. -/
def bestStep (conf : α → Nat) (acc : Option α × Nat) (c : α) : Option α × Nat :=
  if acc.2 < conf c then (some c, conf c) else acc

/-- Maximal confidence over a candidate list (0 when empty). -/
def maxConfOf (conf : α → Nat) (l : List α) : Nat := (l.map conf).foldr max 0

/-- First candidate of maximal (and positive) confidence — the specification
of the arbitration rule, stated independently of the fold. -/
def firstBest (conf : α → Nat) (l : List α) : Option α :=
  l.find? (fun c => decide (0 < conf c) && decide (maxConfOf conf l ≤ conf c))

/-! ### `find_field_value` (extractor.py lines 76-125)

`fuzz.partial_ratio` belongs to an external library (fuzzywuzzy), not to this
repository; it is passed in as an abstract similarity function
`sim : String → String → Nat`, applied — exactly as the source does — to the
lowercased variation and the lowercased stripped line. -/

/-- `text.split('\n')`. -/
def splitLines : Chars → List Chars
  | [] => [[]]
  | '\n' :: t => [] :: splitLines t
  | c :: t =>
    match splitLines t with
    | [] => [[c]]
    | l :: ls => (c :: l) :: ls

/-- The dictionary `find_field_value` builds for one field (the
`reference_range` key, added later by `extract_cbc_values`, is modelled as an
`Option` field that is `none` until then). -/
structure FieldResult where
  value : Option Dec
  confidence : Nat
  unit : Option String
  rawText : String
  matchedVariation : String
  referenceRange : Option (Dec × Dec) := none
  deriving DecidableEq, Repr

/-- The all-absent result `{"value": None, "confidence": 0, ...}`. -/
def emptyFieldResult : FieldResult := ⟨none, 0, none, "", "", none⟩

/-- Inner loop body of `find_field_value`: one `variation` against one
(already stripped, non-blank) `line`, updating `(best_match, best_confidence)`. -/
def ffvVarStep (sim : String → String → Nat) (line : Chars)
    (acc : Option FieldResult × Nat) (variation : String) : Option FieldResult × Nat :=
  let r := sim (lowerString variation) (lowerString ⟨line⟩)
  if 70 < r then
    match parse_value_with_unit ⟨line⟩ with
    | (some value, unit) =>
      let confidence := min r 95
      if acc.2 < confidence then
        (some ⟨some value, confidence, unit, ⟨line⟩, variation, none⟩, confidence)
      else acc
    | (none, _) => acc
  else acc

/-- Outer loop body of `find_field_value`: strip the line, skip it when blank,
otherwise try every variation in order. -/
def ffvLineStep (sim : String → String → Nat) (variations : List String)
    (acc : Option FieldResult × Nat) (rawLine : Chars) : Option FieldResult × Nat :=
  let line := stripChars rawLine
  if line.isEmpty then acc
  else variations.foldl (ffvVarStep sim line) acc

set_option linter.unusedVariables false in
/-- `find_field_value(text, field_name, field_variations)`.  (`field_name` is
used by the source only for debugging.) -/
def find_field_value (sim : String → String → Nat) (text : String)
    (fieldName : String) (variations : List String) : FieldResult :=
  (((splitLines text.data).foldl (ffvLineStep sim variations) (none, 0)).1).getD
    emptyFieldResult

/-- The qualifying candidates of one line, in variation order: similarity
above 70 and a parseable value. -/
def lineCandidates (sim : String → String → Nat) (variations : List String)
    (rawLine : Chars) : List FieldResult :=
  let line := stripChars rawLine
  if line.isEmpty then []
  else
    variations.filterMap (fun variation =>
      let r := sim (lowerString variation) (lowerString ⟨line⟩)
      if 70 < r then
        match parse_value_with_unit ⟨line⟩ with
        | (some value, unit) => some ⟨some value, min r 95, unit, ⟨line⟩, variation, none⟩
        | (none, _) => none
      else none)

/-- All qualifying candidates of `find_field_value`, in scan order
(lines outer, variations inner). -/
def fieldCandidates (sim : String → String → Nat) (text : String)
    (variations : List String) : List FieldResult :=
  ((splitLines text.data).map (lineCandidates sim variations)).flatten

/-! ### `extract_reference_ranges` (extractor.py lines 128-165)

For each field and each name variant the source searches (case-insensitively)
for `variant.*?\\((\\d+\\.?\\d*)\\s*-\\s*(\\d+\\.?\\d*)\\)` (the dot does not cross
newlines), takes the first match of that variant (the `break`), scales by 1000
when the matched span contains "x10", and assigns into the result dictionary —
so a later variant's match overwrites an earlier one.  The `except ValueError`
branch is unreachable (the captures always parse as floats), which the model
reflects by having no failure case after a match. -/

/-- `FIELD_MAPPINGS` of constants.py (insertion order preserved). -/
def FIELD_MAPPINGS : List (String × List String) :=
  [("neutrophils",
    ["neutrophils", "neutrophil", "segs", "segmented neutrophils", "pmn",
     "polymorphonuclear", "poly"]),
   ("lymphocytes", ["lymphocytes", "lymphocyte", "lymphs", "lympho"]),
   ("platelets", ["platelets", "platelet", "plt", "thrombocytes"]),
   ("monocytes", ["monocytes", "monocyte", "monos", "mono"])]

/-- `\\((\\d+\\.?\\d*)\\s*-\\s*(\\d+\\.?\\d*)\\)` at the start of `s`. -/
def matchParenRange (s : Chars) : Option ((Dec × Dec) × Chars) :=
  match chEq '(' s with
  | none => none
  | some s1 =>
    match matchNumber s1 with
    | none => none
    | some (a, s2) =>
      match chEq '-' (skipSpaces s2) with
      | none => none
      | some s3 =>
        match matchNumber (skipSpaces s3) with
        | none => none
        | some (b, s4) =>
          match chEq ')' s4 with
          | none => none
          | some rest => some ((a, b), rest)

/-- Lazy `.*?` scan: try the parenthesised range at the current position, else
step one (non-newline) character and retry — the shortest expansion wins. -/
def lazyToRange (s : Chars) : Option ((Dec × Dec) × Chars) :=
  match matchParenRange s with
  | some x => some x
  | none =>
    match s with
    | [] => none
    | '\n' :: _ => none
    | _ :: t => lazyToRange t

/-- The variant-then-range pattern at one start position, including the
source's `if "x10" in match.group(0).lower()` scaling of both bounds. -/
def varRangeAt (variation : Chars) (s : Chars) : Option (Dec × Dec) :=
  match strCI variation s with
  | none => none
  | some s1 =>
    match lazyToRange s1 with
    | none => none
    | some (rg, rest) =>
      let group0 := s.take (s.length - rest.length)
      if containsSub "x10".data (lowerStr group0) then (some (rg.1.mul1000, rg.2.mul1000))
      else some rg

/-- First (leftmost) match of one variant's pattern in the text: the match the
source's `break` keeps for that variant. -/
def matchVariantRange (variation : String) : Chars → Option (Dec × Dec) :=
  let rec go : Chars → Option (Dec × Dec)
    | [] => none
    | s@(_ :: t) =>
      match varRangeAt variation.data s with
      | some rg => some rg
      | none => go t
  go

/-- One dictionary assignment step: a successful match overwrites the
accumulator, a failed one leaves it. -/
def overwriteStep (m : α → Option β) (a : Option β) (v : α) : Option β :=
  match m v with
  | some x => some x
  | none => a

/-- The variant loop for one field: each variant that matches assigns into the
dictionary, so the accumulator is overwritten by every later success. -/
def rangeForField (variations : List String) (text : Chars) : Option (Dec × Dec) :=
  variations.foldl (overwriteStep (fun v => matchVariantRange v text)) none

/-- `extract_reference_ranges(text)`: a field is present exactly when some
variant of it matched. -/
def extract_reference_ranges (text : Chars) : List (String × (Dec × Dec)) :=
  FIELD_MAPPINGS.filterMap (fun fv =>
    (rangeForField fv.2 text).map (fun rg => (fv.1, rg)))

/-- Python dictionary lookup for the association lists this model builds. -/
def assocLookup (k : String) : List (String × β) → Option β
  | [] => none
  | (a, b) :: t => if a = k then some b else assocLookup k t

/-! ### `extract_cbc_values` (extractor.py lines 168-195) -/

/-- The second loop of `extract_cbc_values`: for every already-extracted field
that also has a reference range, set its `reference_range` key. -/
def attachRanges (ranges : List (String × (Dec × Dec)))
    (l : List (String × FieldResult)) : List (String × FieldResult) :=
  l.map (fun fr =>
    match assocLookup fr.1 ranges with
    | some rg => (fr.1, { fr.2 with referenceRange := some rg })
    | none => fr)

/-- `extract_cbc_values(text)`: run the locator for each of the four fields,
keep only those with a value, then attach reference ranges. -/
def extract_cbc_values (sim : String → String → Nat) (text : String) :
    List (String × FieldResult) :=
  let extracted := FIELD_MAPPINGS.filterMap (fun fv =>
    let result := find_field_value sim text fv.1 fv.2
    if result.value.isSome then some (fv.1, result) else none)
  attachRanges (extract_reference_ranges text.data) extracted

/-! ### `validate_extraction_quality` (extractor.py lines 198-238)

The function reads only the `confidence` entry of each extracted field, so its
input is modelled as an association list from field name to confidence; the
confidences are taken in `ℚ` (the claim quantifies over arbitrary extracted
maps, and no arithmetic here needs kernel evaluation). -/

def requiredFields : List String := ["neutrophils", "lymphocytes", "platelets"]

/-- `sum(1 for field in required_fields if field in extracted_values)`. -/
def foundRequired (m : List (String × ℚ)) : Nat :=
  (requiredFields.filter (fun f => (assocLookup f m).isSome)).length

/-- Mean confidence of all present fields, 0 when none. -/
def avgConfidence (m : List (String × ℚ)) : ℚ :=
  if m.length = 0 then 0 else (m.map (fun p => p.2)).sum / (m.length : ℚ)

structure QualityReport where
  overallQuality : String
  averageConfidence : ℚ
  requiredFieldsFound : Nat
  totalFieldsFound : Nat
  qualityIssues : List String
  manualReviewRecommended : Bool

/-- `validate_extraction_quality(extracted_values)`. -/
def validate_extraction_quality (m : List (String × ℚ)) : QualityReport :=
  { overallQuality :=
      if avgConfidence m > 80 ∧ foundRequired m = requiredFields.length then "high"
      else if avgConfidence m > 60 ∧ foundRequired m ≥ 2 then "medium"
      else "low"
    averageConfidence := avgConfidence m
    requiredFieldsFound := foundRequired m
    totalFieldsFound := m.length
    qualityIssues :=
      (if foundRequired m < requiredFields.length then
        ["Missing required fields: " ++ String.intercalate ", "
          (requiredFields.filter (fun f => (assocLookup f m).isNone))]
      else []) ++
      (if ((m.filter (fun p => p.2 < 70)).map (fun p => p.1)).isEmpty then []
       else ["Low confidence fields: " ++ String.intercalate ", "
          ((m.filter (fun p => p.2 < 70)).map (fun p => p.1))])
    manualReviewRecommended :=
      decide (avgConfidence m < 70 ∨ foundRequired m < requiredFields.length) }

/-! ### Demographic extraction (demographic_extractor.py)

Each extractor evaluates an ordered list of `(pattern, confidence)` rules over
*all* matches (`re.finditer`, non-overlapping, left to right), keeps the
best-confidence valid candidate (strictly greater replaces, so ties keep the
first found), and returns an all-absent result when nothing qualified.
`pattern_used` (the regex source text in Python) is modelled by a short label
per rule.  `datetime.now().year` is the explicit `currentYear` parameter. -/

/-- `(\d+)` with its integer value (`int()` of the capture never fails). -/
def matchDigits (s : Chars) : Option (Nat × Chars) :=
  let ds := s.takeWhile isDigitC
  if ds.isEmpty then none else some (digitsToNat ds, s.dropWhile isDigitC)

/-- `([Mm]ale|[Ff]emale)` under `re.IGNORECASE`, alternation order as written;
the capture is already normalised to its first letter (every alternative
starts with m/f, so the source's `else: continue` branch is unreachable). -/
def matchGenderWord (s : Chars) : Option (Char × Chars) :=
  match strCI ['m', 'a', 'l', 'e'] s with
  | some r => some ('M', r)
  | none =>
    match strCI ['f', 'e', 'm', 'a', 'l', 'e'] s with
    | some r => some ('F', r)
    | none => none

/-- Python `\w` (ASCII part). -/
def isWordChar (c : Char) : Bool :=
  isDigitC c || (('a' ≤ asciiLowerChar c ∧ asciiLowerChar c ≤ 'z') : Bool) || c = '_'

def headIsWordChar : Chars → Bool
  | c :: _ => isWordChar c
  | [] => false

def isWordCharOpt : Option Char → Bool
  | some c => isWordChar c
  | none => false

/-- `[:\s]*`. -/
def skipColonSpaces (s : Chars) : Chars :=
  s.dropWhile (fun c => c == ':' || isPySpace c)

/-- `re.search` for a previous-character-aware matcher (needed for `\b` at a
match start), also returning `group(0)`. -/
def searchPosB (m : Option Char → Chars → Option (α × Chars)) :
    Option Char → Chars → Option (α × Chars × Chars)
  | prev, [] =>
    match m prev [] with
    | some (a, r) => some (a, [], r)
    | none => none
  | prev, s@(c :: t) =>
    match m prev s with
    | some (a, r) => some (a, s.take (s.length - r.length), r)
    | none => searchPosB m (some c) t

/-- `re.finditer`: repeatedly search, continuing after each (never empty)
match; the previous character fed to the next search is the last character of
the current `group(0)`.  Fuel bounds the recursion; `text.length + 1` is
always enough because every pattern here consumes at least one character. -/
def allMatchesB (m : Option Char → Chars → Option (α × Chars)) :
    Nat → Option Char → Chars → List (α × Chars)
  | 0, _, _ => []
  | fuel + 1, prev, s =>
    match searchPosB m prev s with
    | some (a, g0, r) => (a, g0) :: allMatchesB m fuel g0.getLast? r
    | none => []

/-- All matches of a pattern, each with its `group(0)` text. -/
def finditer (m : Option Char → Chars → Option (α × Chars)) (s : Chars) :
    List (α × Chars) :=
  allMatchesB m (s.length + 1) none s

/-! #### `extract_patient_age` (lines 10-64) -/

/-- `(\d+)\s*[Yy]ears?\s*([Mm]ale|[Ff]emale)` — confidence 95. -/
def ageP1 (_prev : Option Char) (s : Chars) : Option (Nat × Chars) :=
  match matchDigits s with
  | none => none
  | some (n, s1) =>
    match strCI ['y', 'e', 'a', 'r'] (skipSpaces s1) with
    | none => none
    | some s2 =>
      let s3 := match chCI 's' s2 with | some r => r | none => s2
      match matchGenderWord (skipSpaces s3) with
      | some (_, r) => some (n, r)
      | none => none

/-- `[Aa]ge[:\s]*(\d+)` — confidence 90. -/
def ageP2 (_prev : Option Char) (s : Chars) : Option (Nat × Chars) :=
  match strCI ['a', 'g', 'e'] s with
  | none => none
  | some s1 => matchDigits (skipColonSpaces s1)

/-- `(\d+)\s*[Yy]\.?[Oo]\.?` — confidence 85. -/
def ageP3 (_prev : Option Char) (s : Chars) : Option (Nat × Chars) :=
  match matchDigits s with
  | none => none
  | some (n, s1) =>
    match chCI 'y' (skipSpaces s1) with
    | none => none
    | some s2 =>
      let s3 := match s2 with | '.' :: r => r | _ => s2
      match chCI 'o' s3 with
      | none => none
      | some s4 =>
        let s5 := match s4 with | '.' :: r => r | _ => s4
        some (n, s5)

/-- `(\d+)\s*([MF])\b` — confidence 80. -/
def ageP4 (_prev : Option Char) (s : Chars) : Option (Nat × Chars) :=
  match matchDigits s with
  | none => none
  | some (n, s1) =>
    match skipSpaces s1 with
    | c :: r =>
      if (asciiLowerChar c = 'm' ∨ asciiLowerChar c = 'f') ∧ headIsWordChar r = false then
        some (n, r)
      else none
    | [] => none

/-- `(\d+)(?=.*(?:[Mm]ale|[Ff]emale|[MF]))` — confidence 70.  The lookahead
succeeds exactly when an m/f letter (case-insensitive; the two word
alternatives are subsumed by `[MF]` under IGNORECASE) occurs after the digits
on the same line (`.` does not cross newlines). -/
def ageP5 (_prev : Option Char) (s : Chars) : Option (Nat × Chars) :=
  match matchDigits s with
  | none => none
  | some (n, r) =>
    if (r.takeWhile (fun c => c ≠ '\n')).any
        (fun c => asciiLowerChar c == 'm' || asciiLowerChar c == 'f') then
      some (n, r)
    else none

/-- One age candidate: parsed integer, rule confidence, `group(0)`, rule label. -/
structure AgeCand where
  age : Nat
  conf : Nat
  raw : Chars
  label : String
  deriving DecidableEq, Repr

def agePatternList : List ((Option Char → Chars → Option (Nat × Chars)) × Nat × String) :=
  [(ageP1, 95, "years-gender"), (ageP2, 90, "age-field"), (ageP3, 85, "y-o"),
   (ageP4, 80, "digits-mf"), (ageP5, 70, "digits-gender-lookahead")]

/-- Every match of every age rule, in rule order then text order. -/
def ageCandidates (text : Chars) : List AgeCand :=
  (agePatternList.map (fun pcl =>
    (finditer pcl.1 text).map (fun m => AgeCand.mk m.1 pcl.2.1 m.2 pcl.2.2))).flatten

structure AgeResult where
  value : Option Nat
  confidence : Nat
  rawText : String
  patternUsed : String
  deriving DecidableEq, Repr

/-- `18 <= age <= 120`. -/
def ageInRange (n : Nat) : Bool := 18 ≤ n && n ≤ 120

/-- `extract_patient_age(text)`: scan all candidates; accept only ages in
[18, 120]; strictly better confidence replaces the best. -/
def extract_patient_age (text : String) : AgeResult :=
  let best := (ageCandidates text.data).foldl
    (fun acc c => if ageInRange c.age then bestStep (fun c : AgeCand => c.conf) acc c
                  else acc) (none, 0)
  match best.1 with
  | some c => ⟨some c.age, c.conf, ⟨c.raw⟩, c.label⟩
  | none => ⟨none, 0, "", ""⟩

/-! #### `extract_patient_sex` (lines 67-124) -/

/-- `\d+\s*[Yy]ears?\s*([Mm]ale|[Ff]emale)` — confidence 95. -/
def sexP1 (_prev : Option Char) (s : Chars) : Option (Char × Chars) :=
  match matchDigits s with
  | none => none
  | some (_, s1) =>
    match strCI ['y', 'e', 'a', 'r'] (skipSpaces s1) with
    | none => none
    | some s2 =>
      let s3 := match chCI 's' s2 with | some r => r | none => s2
      matchGenderWord (skipSpaces s3)

/-- `\b([Mm]ale|[Ff]emale)\b` — confidence 90. -/
def sexP2 (prev : Option Char) (s : Chars) : Option (Char × Chars) :=
  if isWordCharOpt prev then none
  else
    match matchGenderWord s with
    | some (g, r) => if headIsWordChar r then none else some (g, r)
    | none => none

/-- `\b([MF])\b(?=.*(?:[Yy]ears?|[Aa]ge|\d+))` — confidence 80.  The lookahead
succeeds exactly when "year" or "age" (case-insensitive) or a digit occurs
after the letter on the same line. -/
def sexP3 (prev : Option Char) (s : Chars) : Option (Char × Chars) :=
  if isWordCharOpt prev then none
  else
    match s with
    | c :: r =>
      if (asciiLowerChar c = 'm' ∨ asciiLowerChar c = 'f') ∧ headIsWordChar r = false then
        let line := (r.takeWhile (fun ch => ch ≠ '\n'))
        if containsSub ['y', 'e', 'a', 'r'] (lowerStr line) ||
            containsSub ['a', 'g', 'e'] (lowerStr line) || line.any isDigitC then
          some (if asciiLowerChar c = 'm' then 'M' else 'F', r)
        else none
      else none
    | [] => none

/-- `(?:[Ss]ex|[Gg]ender)[:\s]*([MF])` — confidence 85. -/
def sexP4 (_prev : Option Char) (s : Chars) : Option (Char × Chars) :=
  match (match strCI ['s', 'e', 'x'] s with
         | some r => some r
         | none => strCI ['g', 'e', 'n', 'd', 'e', 'r'] s) with
  | none => none
  | some s1 =>
    match skipColonSpaces s1 with
    | c :: r =>
      if asciiLowerChar c = 'm' then some ('M', r)
      else if asciiLowerChar c = 'f' then some ('F', r)
      else none
    | [] => none

structure SexCand where
  sex : Char
  conf : Nat
  raw : Chars
  label : String
  deriving DecidableEq, Repr

def sexPatternList : List ((Option Char → Chars → Option (Char × Chars)) × Nat × String) :=
  [(sexP1, 95, "years-gender"), (sexP2, 90, "standalone-word"),
   (sexP3, 80, "mf-with-context"), (sexP4, 85, "sex-field")]

def sexCandidates (text : Chars) : List SexCand :=
  (sexPatternList.map (fun pcl =>
    (finditer pcl.1 text).map (fun m => SexCand.mk m.1 pcl.2.1 m.2 pcl.2.2))).flatten

structure SexResult where
  value : Option String
  confidence : Nat
  rawText : String
  patternUsed : String
  deriving DecidableEq, Repr

/-- `extract_patient_sex(text)`. -/
def extract_patient_sex (text : String) : SexResult :=
  let best := (sexCandidates text.data).foldl
    (bestStep (fun c : SexCand => c.conf)) (none, 0)
  match best.1 with
  | some c => ⟨some ⟨[c.sex]⟩, c.conf, ⟨c.raw⟩, c.label⟩
  | none => ⟨none, 0, "", ""⟩

/-! #### `extract_test_date` (lines 127-202) -/

/-- `(\d{2}/\d{2}/\d{2,4})`: exactly two digits, slash, exactly two digits,
slash, two to four digits (greedy).  Returns the captured date string. -/
def slashDate (s : Chars) : Option (Chars × Chars) :=
  match s with
  | a :: b :: '/' :: c :: d :: '/' :: rest =>
    if isDigitC a && isDigitC b && isDigitC c && isDigitC d then
      let yy := (rest.takeWhile isDigitC).take 4
      if yy.length < 2 then none
      else some (a :: b :: '/' :: c :: d :: '/' :: yy, rest.drop yy.length)
    else none
  | _ => none

/-- `(\d{4}-\d{2}-\d{2})`. -/
def isoDate (s : Chars) : Option (Chars × Chars) :=
  match s with
  | a :: b :: c :: d :: '-' :: e :: f :: '-' :: g :: h :: rest =>
    if isDigitC a && isDigitC b && isDigitC c && isDigitC d &&
        isDigitC e && isDigitC f && isDigitC g && isDigitC h then
      some (a :: b :: c :: d :: '-' :: e :: f :: '-' :: g :: h :: [], rest)
    else none
  | _ => none

/-- `[Cc]ollected[:\s]*(\d{2}/\d{2}/\d{2,4})` — confidence 95. -/
def dateP1 (_prev : Option Char) (s : Chars) : Option (Chars × Chars) :=
  match strCI ['c', 'o', 'l', 'l', 'e', 'c', 't', 'e', 'd'] s with
  | none => none
  | some s1 => slashDate (skipColonSpaces s1)

/-- `[Rr]eported[:\s]*(\d{2}/\d{2}/\d{2,4})` — confidence 90. -/
def dateP2 (_prev : Option Char) (s : Chars) : Option (Chars × Chars) :=
  match strCI ['r', 'e', 'p', 'o', 'r', 't', 'e', 'd'] s with
  | none => none
  | some s1 => slashDate (skipColonSpaces s1)

/-- `[Dd]ate[:\s]*(\d{4}-\d{2}-\d{2})` — confidence 90. -/
def dateP3 (_prev : Option Char) (s : Chars) : Option (Chars × Chars) :=
  match strCI ['d', 'a', 't', 'e'] s with
  | none => none
  | some s1 => isoDate (skipColonSpaces s1)

/-- `(\d{2}/\d{2}/\d{2,4})` — confidence 70. -/
def dateP4 (_prev : Option Char) (s : Chars) : Option (Chars × Chars) :=
  slashDate s

/-- `(\d{4}-\d{2}-\d{2})` — confidence 75. -/
def dateP5 (_prev : Option Char) (s : Chars) : Option (Chars × Chars) :=
  isoDate s

structure DateCand where
  dateStr : Chars
  conf : Nat
  raw : Chars
  label : String
  deriving DecidableEq, Repr

def datePatternList : List ((Option Char → Chars → Option (Chars × Chars)) × Nat × String) :=
  [(dateP1, 95, "collected-slash"), (dateP2, 90, "reported-slash"),
   (dateP3, 90, "date-iso"), (dateP4, 70, "bare-slash"), (dateP5, 75, "bare-iso")]

def dateCandidates (text : Chars) : List DateCand :=
  (datePatternList.map (fun pcl =>
    (finditer pcl.1 text).map (fun m => DateCand.mk m.1 pcl.2.1 m.2 pcl.2.2))).flatten

/-- Split on a separator character (Python `str.split(sep)`). -/
def splitOnChar (sep : Char) : Chars → List Chars
  | [] => [[]]
  | c :: t =>
    if c = sep then [] :: splitOnChar sep t
    else
      match splitOnChar sep t with
      | [] => [[c]]
      | l :: ls => (c :: l) :: ls

/-- The two-digit-year century rule: `year < 50 → 20xx else 19xx`. -/
def expandTwoDigitYear (y : Nat) : Nat := if y < 50 then y + 2000 else y + 1900

def isLeapYear (y : Nat) : Bool := (y % 4 == 0 && y % 100 != 0) || y % 400 == 0

def daysInMonth (y m : Nat) : Nat :=
  if m = 2 then (if isLeapYear y then 29 else 28)
  else if m = 4 ∨ m = 6 ∨ m = 9 ∨ m = 11 then 30
  else 31

/-- `datetime.strptime` calendar validity (datetime years are 1..9999). -/
def validDate (y m d : Nat) : Bool :=
  1 ≤ y && y ≤ 9999 && 1 ≤ m && m ≤ 12 && 1 ≤ d && d ≤ daysInMonth y m

/-- Decimal digits of `n`, padded to `width` with leading zeros (strftime). -/
def padNum (width n : Nat) : Chars :=
  let ds := Nat.toDigits 10 n
  List.replicate (width - ds.length) '0' ++ ds

/-- `parsed_date.strftime("%Y-%m-%d")`. -/
def isoFormat (y m d : Nat) : Chars :=
  padNum 4 y ++ '-' :: (padNum 2 m ++ '-' :: padNum 2 d)

/-- The clock-independent part of processing one captured date string: split
on the separator, expand a two-digit year by the century rule (a three-digit
year makes `strptime("%Y")` raise, i.e. fail), and validate the calendar
date.  Returns the (year, month, day) of `parsed_date`. -/
def parseCandidateDate (dateStr : Chars) : Option (Nat × Nat × Nat) :=
  if dateStr.contains '/' then
    match splitOnChar '/' dateStr with
    | [mmS, ddS, yyS] =>
      let yearO : Option Nat :=
        if yyS.length = 2 then some (expandTwoDigitYear (digitsToNat yyS))
        else if yyS.length = 4 then some (digitsToNat yyS)
        else none
      match yearO with
      | none => none
      | some y =>
        if validDate y (digitsToNat mmS) (digitsToNat ddS) then
          some (y, digitsToNat mmS, digitsToNat ddS)
        else none
    | _ => none
  else if dateStr.contains '-' then
    match splitOnChar '-' dateStr with
    | [yS, mS, dS] =>
      if validDate (digitsToNat yS) (digitsToNat mS) (digitsToNat dS) then
        some (digitsToNat yS, digitsToNat mS, digitsToNat dS)
      else none
    | _ => none
  else none

/-- `(current_year - 10) <= parsed_date.year <= (current_year + 1)`. -/
def yearWindowB (cy y : Nat) : Bool :=
  decide ((cy : Int) - 10 ≤ (y : Int) ∧ (y : Int) ≤ (cy : Int) + 1)

/-- Processing of one candidate inside the loop: parse, then keep only dates
whose year is plausible relative to the current clock year. -/
def processDateCandidate (cy : Nat) (dateStr : Chars) : Option String :=
  match parseCandidateDate dateStr with
  | some (y, m, d) => if yearWindowB cy y then some ⟨isoFormat y m d⟩ else none
  | none => none

structure DateResult where
  value : Option String
  confidence : Nat
  rawText : String
  patternUsed : String
  deriving DecidableEq, Repr

/-- `extract_test_date(text)` with the clock year explicit. -/
def extract_test_date (currentYear : Nat) (text : String) : DateResult :=
  let best := (dateCandidates text.data).foldl
    (fun acc c =>
      match processDateCandidate currentYear c.dateStr with
      | some val => if acc.2 < c.conf then (some (val, c), c.conf) else acc
      | none => acc) (none, 0)
  match best.1 with
  | some (val, c) => ⟨some val, c.conf, ⟨c.raw⟩, c.label⟩
  | none => ⟨none, 0, "", ""⟩

structure Demographics where
  age : AgeResult
  sex : SexResult
  testDate : DateResult
  deriving DecidableEq, Repr

/-- `extract_patient_demographics(text)` (lines 205-221), with the one
ambient input the three sub-extractors consult — the clock year read by
`extract_test_date` via `datetime.now()` — made explicit. -/
def extract_patient_demographics (currentYear : Nat) (text : String) : Demographics :=
  ⟨extract_patient_age text, extract_patient_sex text, extract_test_date currentYear text⟩

/-! ## Theorems -/

theorem Dec.toRat_mul1000 (d : Dec) : (Dec.mul1000 d).toRat = d.toRat * 1000 := by
  simp [Dec.toRat, Dec.mul1000]
  ring

theorem le_maxConfOf (conf : α → Nat) {l : List α} {x : α} (hx : x ∈ l) :
    conf x ≤ maxConfOf conf l := by
  induction l with
  | nil => cases hx
  | cons a t ih =>
    rcases List.mem_cons.mp hx with rfl | hmem
    · exact le_max_left _ _
    · exact le_trans (ih hmem) (le_max_right _ _)

theorem maxConfOf_attained (conf : α → Nat) {l : List α}
    (h : 0 < maxConfOf conf l) : ∃ x ∈ l, conf x = maxConfOf conf l := by
  induction l with
  | nil => simp [maxConfOf] at h
  | cons a t ih =>
    rcases le_or_lt (maxConfOf conf t) (conf a) with hle | hlt
    · exact ⟨a, List.mem_cons_self _ _, (max_eq_left hle).symm⟩
    · have hmax : maxConfOf conf (a :: t) = maxConfOf conf t := max_eq_right hlt.le
      rw [hmax] at h ⊢
      obtain ⟨x, hx, hc⟩ := ih h
      exact ⟨x, List.mem_cons_of_mem _ hx, hc⟩

theorem find?_congr_mem {p q : α → Bool} :
    ∀ {l : List α}, (∀ a ∈ l, p a = q a) → l.find? p = l.find? q := by
  intro l
  induction l with
  | nil => intro _; rfl
  | cons a t ih =>
    intro h
    have hha := h a (List.mem_cons_self _ _)
    simp only [List.find?_cons]
    rw [hha]
    cases q a with
    | true => rfl
    | false => exact ih (fun x hx => h x (List.mem_cons_of_mem _ hx))

theorem bestFold_aux (conf : α → Nat) :
    ∀ (l : List α) (b : Option α) (k : Nat),
      l.foldl (bestStep conf) (b, k)
        = match l.find? (fun c => decide (k < conf c) &&
              decide (maxConfOf conf l ≤ conf c)) with
          | some c => (some c, conf c)
          | none => (b, k) := by
  intro l
  induction l with
  | nil => intro b k; rfl
  | cons c t ih =>
    intro b k
    have hmax : maxConfOf conf (c :: t) = max (conf c) (maxConfOf conf t) := rfl
    by_cases hk : k < conf c
    · by_cases hm : maxConfOf conf t ≤ conf c
      · -- head already attains the overall maximum
        have hstep : bestStep conf (b, k) c = (some c, conf c) := by
          simp [bestStep, hk]
        have hnone : t.find? (fun x => decide (conf c < conf x) &&
            decide (maxConfOf conf t ≤ conf x)) = none := by
          rw [List.find?_eq_none]
          intro x hx
          have := le_maxConfOf conf hx
          simp only [Bool.and_eq_true, decide_eq_true_eq, not_and]
          intro hlt
          omega
        have hpredc : (fun x => decide (k < conf x) &&
            decide (maxConfOf conf (c :: t) ≤ conf x)) c = true := by
          simp [hmax, hk, hm, Nat.max_le]
        simp only [List.foldl_cons, hstep, ih, hnone, List.find?_cons, hpredc]
      · -- the maximum lives in the tail and is strictly above the head
        push_neg at hm
        have hstep : bestStep conf (b, k) c = (some c, conf c) := by
          simp [bestStep, hk]
        have hmax2 : maxConfOf conf (c :: t) = maxConfOf conf t := max_eq_right hm.le
        have hcongr : t.find? (fun x => decide (conf c < conf x) &&
              decide (maxConfOf conf t ≤ conf x))
            = t.find? (fun x => decide (k < conf x) &&
              decide (maxConfOf conf t ≤ conf x)) := by
          apply find?_congr_mem
          intro x _
          by_cases hx : maxConfOf conf t ≤ conf x
          · have h1 : conf c < conf x := lt_of_lt_of_le hm hx
            have h2 : k < conf x := lt_trans hk h1
            simp [hx, h1, h2]
          · simp [hx]
        have hattn : 0 < maxConfOf conf t := lt_of_le_of_lt (Nat.zero_le _) hm
        obtain ⟨x, hxmem, hxconf⟩ := maxConfOf_attained conf hattn
        have hpredc : (fun x => decide (k < conf x) &&
            decide (maxConfOf conf (c :: t) ≤ conf x)) c = false := by
          simp only [hmax2, Bool.and_eq_false_iff, decide_eq_false_iff_not, not_le]
          right
          exact hm
        cases hfind : t.find? (fun x => decide (k < conf x) &&
            decide (maxConfOf conf t ≤ conf x)) with
        | none =>
          exfalso
          rw [List.find?_eq_none] at hfind
          have := hfind x hxmem
          have h2 : k < conf x := by omega
          simp [h2, hxconf] at this
          omega
        | some y =>
          simp only [List.foldl_cons, hstep, ih, hcongr, hfind, List.find?_cons, hpredc,
            hmax2]
          rw [decide_eq_false (by omega : ¬ maxConfOf conf t ≤ conf c)]
          simp
    · -- head not better than the carried confidence
      have hstep : bestStep conf (b, k) c = (b, k) := by
        simp [bestStep, hk]
      have hcongr : t.find? (fun x => decide (k < conf x) &&
            decide (maxConfOf conf t ≤ conf x))
          = t.find? (fun x => decide (k < conf x) &&
            decide (maxConfOf conf (c :: t) ≤ conf x)) := by
        apply find?_congr_mem
        intro x _
        by_cases hkx : k < conf x
        · have hcx : conf c ≤ conf x := by omega
          have : (maxConfOf conf (c :: t) ≤ conf x) ↔ (maxConfOf conf t ≤ conf x) := by
            rw [hmax]
            omega
          simp [hkx, this]
        · simp [hkx]
      have hpredc : (fun x => decide (k < conf x) &&
          decide (maxConfOf conf (c :: t) ≤ conf x)) c = false := by
        simp only [Bool.and_eq_false_iff, decide_eq_false_iff_not, not_lt]
        left
        omega
      simp only [List.foldl_cons, hstep, ih, hcongr, List.find?_cons, hpredc]

theorem bestFold_eq_firstBest (conf : α → Nat) (l : List α) :
    (l.foldl (bestStep conf) (none, 0)).1 = firstBest conf l := by
  rw [bestFold_aux]
  unfold firstBest
  cases l.find? (fun c => decide (0 < conf c) && decide (maxConfOf conf l ≤ conf c)) <;> rfl

/-- `(l.filterMap f).foldl g` seen as a fold over `l` that skips `none`s. -/
theorem foldl_filterMap_eq (f : α → Option β) (g : σ → β → σ) :
    ∀ (l : List α) (s : σ),
      (l.filterMap f).foldl g s
        = l.foldl (fun s a => match f a with | some b => g s b | none => s) s := by
  intro l
  induction l with
  | nil => intro s; rfl
  | cons a t ih =>
    intro s
    cases hfa : f a <;> simp [List.filterMap_cons, hfa, ih]

theorem foldl_congr_fn {f g : σ → α → σ} (h : ∀ s a, f s a = g s a) :
    ∀ (l : List α) (s : σ), l.foldl f s = l.foldl g s := by
  intro l
  induction l with
  | nil => intro s; rfl
  | cons a t ih => intro s; simp only [List.foldl_cons, h, ih]

/-! ### `find_field_value` as a first-best selection (claim C4) -/

theorem ffvLineStep_eq_bestFold (sim : String → String → Nat)
    (variations : List String) (acc : Option FieldResult × Nat) (rawLine : Chars) :
    ffvLineStep sim variations acc rawLine
      = (lineCandidates sim variations rawLine).foldl
          (bestStep (fun c => c.confidence)) acc := by
  unfold ffvLineStep lineCandidates
  by_cases hb : (stripChars rawLine).isEmpty
  · simp [hb]
  · simp only [hb, Bool.false_eq_true, if_false]
    rw [foldl_filterMap_eq]
    apply foldl_congr_fn
    intro a v
    unfold ffvVarStep
    by_cases hr : 70 < sim (lowerString v) (lowerString ⟨stripChars rawLine⟩)
    · simp only [hr, if_true]
      rcases hp : parse_value_with_unit ⟨stripChars rawLine⟩ with ⟨val, u⟩
      cases val <;> simp [bestStep]
    · simp [hr]

theorem find_field_value_eq_firstBest (sim : String → String → Nat)
    (text fieldName : String) (variations : List String) :
    find_field_value sim text fieldName variations
      = (firstBest (fun c => c.confidence)
          (fieldCandidates sim text variations)).getD emptyFieldResult := by
  unfold find_field_value fieldCandidates
  rw [← bestFold_eq_firstBest]
  congr 2
  rw [List.foldl_flatten, List.foldl_map]
  exact foldl_congr_fn (fun a raw => ffvLineStep_eq_bestFold sim variations a raw) _ _

theorem mem_fieldCandidates {sim : String → String → Nat} {text : String}
    {variations : List String} {c : FieldResult}
    (hc : c ∈ fieldCandidates sim text variations) :
    70 < c.confidence ∧ c.confidence ≤ 95 ∧ c.value.isSome = true := by
  unfold fieldCandidates at hc
  rw [List.mem_flatten] at hc
  obtain ⟨lc, hlc, hcin⟩ := hc
  rw [List.mem_map] at hlc
  obtain ⟨raw, _, rfl⟩ := hlc
  unfold lineCandidates at hcin
  by_cases hb : (stripChars raw).isEmpty
  · simp [hb] at hcin
  · simp only [hb, Bool.false_eq_true, if_false] at hcin
    rw [List.mem_filterMap] at hcin
    obtain ⟨v, _, hv⟩ := hcin
    by_cases hr : 70 < sim (lowerString v) (lowerString ⟨stripChars raw⟩)
    · simp only [hr, if_true] at hv
      rcases hp : parse_value_with_unit ⟨stripChars raw⟩ with ⟨val, u⟩
      rw [hp] at hv
      cases val with
      | none => simp at hv
      | some d =>
        simp only [Option.some.injEq] at hv
        subst hv
        refine ⟨?_, ?_, rfl⟩ <;> (simp; try omega)
    · simp [hr] at hv

/-- C4: for every text, field and variant list, `find_field_value` returns a
confidence in `[0, 95]` with `confidence = 0` exactly when no value was
extracted, and the returned record is the first qualifying candidate (scan
order: lines outer, variants inner) of maximal confidence — so ties keep the
candidate found first. -/
theorem C4_find_field_value_invariants (sim : String → String → Nat)
    (text fieldName : String) (variations : List String) :
    (find_field_value sim text fieldName variations).confidence ≤ 95 ∧
    ((find_field_value sim text fieldName variations).confidence = 0 ↔
      (find_field_value sim text fieldName variations).value = none) ∧
    find_field_value sim text fieldName variations
      = (firstBest (fun c => c.confidence)
          (fieldCandidates sim text variations)).getD emptyFieldResult := by
  have heq := find_field_value_eq_firstBest sim text fieldName variations
  refine ⟨?_, ?_, heq⟩
  · rw [heq]
    cases hfb : firstBest (fun c => c.confidence) (fieldCandidates sim text variations) with
    | none => simp [emptyFieldResult]
    | some c =>
      have hprop := mem_fieldCandidates (List.mem_of_find?_eq_some hfb)
      simp only [Option.getD_some]
      omega
  · rw [heq]
    cases hfb : firstBest (fun c => c.confidence) (fieldCandidates sim text variations) with
    | none => simp [emptyFieldResult]
    | some c =>
      have hprop := mem_fieldCandidates (List.mem_of_find?_eq_some hfb)
      simp only [Option.getD_some]
      constructor
      · intro h0
        omega
      · intro hv
        rw [hv] at hprop
        simp at hprop

/-! ### `extract_reference_ranges`: later variants overwrite (claim C3) -/

theorem getLast?_cons_getD (x : β) (l : List β) :
    (x :: l).getLast? = some (l.getLast?.getD x) := by
  induction l generalizing x with
  | nil => rfl
  | cons y t ih =>
    rw [List.getLast?_cons_cons, ih y]
    simp

theorem overwriteFold_aux (m : α → Option β) :
    ∀ (vs : List α) (acc : Option β),
      vs.foldl (overwriteStep m) acc = ((vs.filterMap m).getLast?).or acc := by
  intro vs
  induction vs with
  | nil => intro acc; rfl
  | cons v t ih =>
    intro acc
    simp only [List.foldl_cons, List.filterMap_cons]
    cases hv : m v with
    | none =>
      rw [show overwriteStep m acc v = acc by simp [overwriteStep, hv]]
      exact ih acc
    | some x =>
      rw [show overwriteStep m acc v = some x by simp [overwriteStep, hv]]
      rw [ih (some x)]
      show (List.filterMap m t).getLast?.or (some x) = ((x :: List.filterMap m t).getLast?).or acc
      rw [getLast?_cons_getD]
      cases (t.filterMap m).getLast? <;> rfl

theorem rangeForField_eq_lastValid (variations : List String) (text : Chars) :
    rangeForField variations text
      = (variations.filterMap (fun v => matchVariantRange v text)).getLast? := by
  have h := overwriteFold_aux (fun v => matchVariantRange v text) variations none
  have h2 : ((variations.filterMap (fun v => matchVariantRange v text)).getLast?).or none
      = (variations.filterMap (fun v => matchVariantRange v text)).getLast? := by
    cases (variations.filterMap (fun v => matchVariantRange v text)).getLast? <;> rfl
  exact (h.trans h2)

/-- C3 counterexample: on
"neutrophils (1.0-2.0)\nsegs (3.0-4.0)" the first variant of the
neutrophils field ("neutrophils") has a valid first match giving the range
(1.0, 2.0), yet the returned range for the field is (3.0, 4.0) — the match of
the later variant "segs" overwrote it, because the source's `break` only
leaves the per-variant match loop, not the variant loop.  This refutes the
claim that once one variant yields a valid range, later variants cannot
change the returned range. -/
theorem C3_counterexample :
    assocLookup "neutrophils"
        (extract_reference_ranges ("neutrophils (1.0-2.0)\nsegs (3.0-4.0)").data)
      = some (⟨30, 1⟩, ⟨40, 1⟩) ∧
    matchVariantRange "neutrophils" ("neutrophils (1.0-2.0)\nsegs (3.0-4.0)").data
      = some (⟨10, 1⟩, ⟨20, 1⟩) ∧
    (Dec.mk 30 1).toRat = 3 ∧ (Dec.mk 10 1).toRat = 1 ∧
    ((⟨30, 1⟩ : Dec), (⟨40, 1⟩ : Dec)) ≠ ((⟨10, 1⟩ : Dec), (⟨20, 1⟩ : Dec)) := by
  refine ⟨by decide, by decide, ?_, ?_, by decide⟩ <;> norm_num [Dec.toRat]

/-- C3 amended: `extract_reference_ranges` keeps, for each field, the range of
the *last* variant (in the field's variant order) that has a valid match in
the text, each variant contributing its first (leftmost) match; a field is
absent exactly when no variant matches.  (The claim's other half — malformed
numeric captures are skipped without aborting the scan — is vacuous in the
source: the capture group always parses as a float, so the `except
ValueError` path is dead code.) -/
theorem C3_reference_ranges_last_variant_wins (text : Chars) :
    extract_reference_ranges text
      = FIELD_MAPPINGS.filterMap (fun fv =>
          ((fv.2.filterMap (fun v => matchVariantRange v text)).getLast?).map
            (fun rg => (fv.1, rg))) := by
  unfold extract_reference_ranges
  simp only [rangeForField_eq_lastValid]

/-! ### `extract_cbc_values` keeps exactly the found fields (claim C8) -/

/-- C8: an entry appears in `extract_cbc_values` exactly for fields (among the
four of `FIELD_MAPPINGS`) whose locator result has a present value; every
entry carries the locator's value, and a reference range can only sit on an
entry that has a value. -/
theorem C8_extract_cbc_values_spec (sim : String → String → Nat) (text : String) :
    (∀ f r, (f, r) ∈ extract_cbc_values sim text → r.value.isSome = true) ∧
    (∀ f, (∃ r, (f, r) ∈ extract_cbc_values sim text) ↔
      (∃ vs, (f, vs) ∈ FIELD_MAPPINGS ∧
        (find_field_value sim text f vs).value.isSome = true)) ∧
    (∀ f r, (f, r) ∈ extract_cbc_values sim text →
      r.referenceRange.isSome = true → r.value.isSome = true) := by
  have hmem : ∀ f r, (f, r) ∈ extract_cbc_values sim text →
      ∃ vs, (f, vs) ∈ FIELD_MAPPINGS ∧
        (find_field_value sim text f vs).value.isSome = true ∧
        r.value = (find_field_value sim text f vs).value := by
    intro f r hr
    unfold extract_cbc_values attachRanges at hr
    simp only [List.mem_map] at hr
    obtain ⟨fr, hfr, heq⟩ := hr
    rw [List.mem_filterMap] at hfr
    obtain ⟨fv, hfv, hstep⟩ := hfr
    by_cases hv : (find_field_value sim text fv.1 fv.2).value.isSome
    · simp only [hv, if_true, Option.some.injEq] at hstep
      subst hstep
      have hf : f = fv.1 ∧ r.value = (find_field_value sim text fv.1 fv.2).value := by
        cases hlk : assocLookup fv.1 (extract_reference_ranges text.data) with
        | some rg => rw [hlk] at heq; cases heq; exact ⟨rfl, rfl⟩
        | none => rw [hlk] at heq; cases heq; exact ⟨rfl, rfl⟩
      obtain ⟨rfl, hval⟩ := hf
      exact ⟨fv.2, by simpa using hfv, hv, hval⟩
    · simp [hv] at hstep
  refine ⟨?_, ?_, ?_⟩
  · intro f r hr
    obtain ⟨vs, _, hsome, hval⟩ := hmem f r hr
    rw [hval]
    exact hsome
  · intro f
    constructor
    · rintro ⟨r, hr⟩
      obtain ⟨vs, hin, hsome, _⟩ := hmem f r hr
      exact ⟨vs, hin, hsome⟩
    · rintro ⟨vs, hin, hsome⟩
      have hstep : (f, find_field_value sim text f vs) ∈
          FIELD_MAPPINGS.filterMap (fun fv =>
            let result := find_field_value sim text fv.1 fv.2
            if result.value.isSome then some (fv.1, result) else none) := by
        rw [List.mem_filterMap]
        exact ⟨(f, vs), hin, by simp [hsome]⟩
      refine ⟨(match assocLookup f (extract_reference_ranges text.data) with
        | some rg => { find_field_value sim text f vs with referenceRange := some rg }
        | none => find_field_value sim text f vs), ?_⟩
      unfold extract_cbc_values attachRanges
      simp only [List.mem_map]
      refine ⟨(f, find_field_value sim text f vs), hstep, ?_⟩
      cases assocLookup f (extract_reference_ranges text.data) <;> rfl
  · intro f r hr _
    obtain ⟨vs, _, hsome, hval⟩ := hmem f r hr
    rw [hval]
    exact hsome

/-! ### `validate_extraction_quality` thresholds (claim C5) -/

/-- C5: the quality verdict is "high" exactly when the average confidence of
the present fields exceeds 80 and all three required fields are present;
"medium" exactly when it is not "high", the average exceeds 60, and at least
two required fields are present; "low" exactly otherwise; and manual review
is recommended exactly when the average is below 70 or a required field is
missing. -/
theorem C5_validate_extraction_quality_spec (m : List (String × ℚ)) :
    ((validate_extraction_quality m).overallQuality = "high" ↔
      (80 < avgConfidence m ∧ foundRequired m = 3)) ∧
    ((validate_extraction_quality m).overallQuality = "medium" ↔
      (¬(80 < avgConfidence m ∧ foundRequired m = 3) ∧
        60 < avgConfidence m ∧ 2 ≤ foundRequired m)) ∧
    ((validate_extraction_quality m).overallQuality = "low" ↔
      (¬(80 < avgConfidence m ∧ foundRequired m = 3) ∧
        ¬(60 < avgConfidence m ∧ 2 ≤ foundRequired m))) ∧
    ((validate_extraction_quality m).manualReviewRecommended = true ↔
      (avgConfidence m < 70 ∨ foundRequired m < 3)) := by
  have hreq : requiredFields.length = 3 := rfl
  unfold validate_extraction_quality
  simp only [hreq]
  refine ⟨?_, ?_, ?_, ?_⟩
  · split_ifs with h1 h2 <;> simp_all
  · split_ifs with h1 h2 <;> simp_all
  · split_ifs with h1 h2 <;> simp_all
  · simp [decide_eq_true_eq]

/-! ### `extract_patient_age`: range filter and arbitration (claim C6) -/

theorem foldl_guard_filter (P : α → Bool) (g : σ → α → σ) :
    ∀ (l : List α) (s : σ),
      l.foldl (fun acc c => if P c then g acc c else acc) s = (l.filter P).foldl g s := by
  intro l
  induction l with
  | nil => intro s; rfl
  | cons a t ih =>
    intro s
    cases hpa : P a <;> simp [List.filter_cons, hpa, ih]

/-- C6: a pattern-matched age candidate is accepted only when the parsed
integer lies in [18, 120] — out-of-range candidates are discarded exactly as
if they had never matched (the result is the first-best over the *filtered*
candidate list); among accepted candidates the highest confidence wins (ties
keep the first found); and on the two example inputs:
`extract_patient_age "58 Years Male"` yields value 58 at confidence 95 and
`extract_patient_age "5 Years Male"` yields an absent value at confidence 0. -/
theorem C6_extract_patient_age_spec :
    (∀ text : String,
      extract_patient_age text =
        match firstBest (fun c : AgeCand => c.conf)
            ((ageCandidates text.data).filter (fun c => ageInRange c.age)) with
        | some c => ⟨some c.age, c.conf, ⟨c.raw⟩, c.label⟩
        | none => ⟨none, 0, "", ""⟩) ∧
    extract_patient_age "58 Years Male" = ⟨some 58, 95, "58 Years Male", "years-gender"⟩ ∧
    extract_patient_age "5 Years Male" = ⟨none, 0, "", ""⟩ := by
  refine ⟨?_, by decide, by decide⟩
  intro text
  unfold extract_patient_age
  rw [foldl_guard_filter (fun c => ageInRange c.age)
    (bestStep (fun c : AgeCand => c.conf)) (ageCandidates text.data) (none, 0)]
  simp only [bestFold_eq_firstBest]

/-! ### `extract_test_date` and the plausible-year window (claim C1) -/

/-- C1 counterexample: with the clock year at 2026 (any clock year from 1986
on behaves the same, see the amended theorem),
`extract_test_date "Collected: 03/15/75"` does *not* return "1975-03-15": the
expanded year 1975 falls outside the source's plausibility window
`[current_year - 10, current_year + 1]` (demographic_extractor.py line 184),
so the candidate is rejected and the result is absent with confidence 0. -/
theorem C1_counterexample :
    extract_test_date 2026 "Collected: 03/15/75" = ⟨none, 0, "", ""⟩ ∧
    (extract_test_date 2026 "Collected: 03/15/75").value ≠ some "1975-03-15" := by
  exact ⟨by decide, by decide⟩

/-- C1 amended: `extract_test_date "Collected: 03/15/25"` returns
"2025-03-15" (confidence 95) for every clock year that makes 2025 plausible
(2024 ≤ year ≤ 2035, which holds now); the century rule does expand
75 → 1975 and 25 → 2025, but for `"Collected: 03/15/75"` the expanded year
1975 is outside `[current_year - 10, current_year + 1]` for every clock year
from 1986 on, so the function returns an absent value with confidence 0
rather than "1975-03-15". -/
theorem C1_test_date_century_rule_with_window :
    (∀ cy : Nat, 2024 ≤ cy → cy ≤ 2035 →
      extract_test_date cy "Collected: 03/15/25"
        = ⟨some "2025-03-15", 95, "Collected: 03/15/25", "collected-slash"⟩) ∧
    (∀ cy : Nat, 1986 ≤ cy →
      extract_test_date cy "Collected: 03/15/75" = ⟨none, 0, "", ""⟩) ∧
    expandTwoDigitYear 25 = 2025 ∧ expandTwoDigitYear 75 = 1975 := by
  refine ⟨?_, ?_, by decide, by decide⟩
  · intro cy h1 h2
    unfold extract_test_date
    have hc : dateCandidates ("Collected: 03/15/25" : String).data
        = [⟨("03/15/25").data, 95, ("Collected: 03/15/25").data, "collected-slash"⟩,
           ⟨("03/15/25").data, 70, ("03/15/25").data, "bare-slash"⟩] := by decide
    rw [hc]
    have hp : processDateCandidate cy ("03/15/25").data
        = if yearWindowB cy 2025 then some "2025-03-15" else none := by
      have hpd : parseCandidateDate ("03/15/25").data = some (2025, 3, 15) := by decide
      unfold processDateCandidate
      rw [hpd]
      show (if yearWindowB cy 2025 = true then some (⟨isoFormat 2025 3 15⟩ : String) else none) = _
      rw [show (⟨isoFormat 2025 3 15⟩ : String) = "2025-03-15" by decide]
    have hw : yearWindowB cy 2025 = true := by
      unfold yearWindowB
      rw [decide_eq_true_eq]
      constructor <;> omega
    simp only [List.foldl_cons, List.foldl_nil, hp, hw, if_true]
    decide
  · intro cy h1
    unfold extract_test_date
    have hc : dateCandidates ("Collected: 03/15/75" : String).data
        = [⟨("03/15/75").data, 95, ("Collected: 03/15/75").data, "collected-slash"⟩,
           ⟨("03/15/75").data, 70, ("03/15/75").data, "bare-slash"⟩] := by decide
    rw [hc]
    have hp : processDateCandidate cy ("03/15/75").data
        = if yearWindowB cy 1975 then some "1975-03-15" else none := by
      have hpd : parseCandidateDate ("03/15/75").data = some (1975, 3, 15) := by decide
      unfold processDateCandidate
      rw [hpd]
      show (if yearWindowB cy 1975 = true then some (⟨isoFormat 1975 3 15⟩ : String) else none) = _
      rw [show (⟨isoFormat 1975 3 15⟩ : String) = "1975-03-15" by decide]
    have hw : yearWindowB cy 1975 = false := by
      unfold yearWindowB
      rw [decide_eq_false_iff_not]
      rintro ⟨ha, -⟩
      omega
    simp only [List.foldl_cons, List.foldl_nil, hp, hw, if_false]
    decide

/-- C1 witness: the amended theorem applied at the concrete clock year 2026. -/
theorem C1_test_date_witness :
    extract_test_date 2026 "Collected: 03/15/25"
      = ⟨some "2025-03-15", 95, "Collected: 03/15/25", "collected-slash"⟩ ∧
    extract_test_date 2026 "Collected: 03/15/75" = ⟨none, 0, "", ""⟩ :=
  ⟨C1_test_date_century_rule_with_window.1 2026 (by decide) (by decide),
   C1_test_date_century_rule_with_window.2.1 2026 (by decide)⟩

/-! ### Determinism of the extractors (claim C9) -/

/-- C9 counterexample: `extract_test_date` reads `datetime.now().year`
(line 183), so `extract_patient_demographics` is *not* a function of the
input text alone: on "Date: 2027-06-01" two calls under clock years 2025 and
2026 give different results (the year 2027 is outside the plausibility window
`[2015, 2026]` of clock year 2025, but inside `[2016, 2027]` of clock
year 2026). -/
theorem C9_counterexample :
    (extract_patient_demographics 2025 "Date: 2027-06-01").testDate.value = none ∧
    (extract_patient_demographics 2026 "Date: 2027-06-01").testDate.value
      = some "2027-06-01" ∧
    extract_patient_demographics 2025 "Date: 2027-06-01"
      ≠ extract_patient_demographics 2026 "Date: 2027-06-01" := by
  exact ⟨by decide, by decide, by decide⟩

/-- C9 amended: every extractor of the pipeline is a pure function of its
explicit inputs — the CBC extractors of the text (and the similarity
function) alone, and the demographic combinator of the text and the clock
year read by `datetime.now()`.  The age and sex components never depend on
the clock, and the test-date component is exactly `extract_test_date` at the
ambient clock year — so two calls agree whenever they happen in the same
clock year, but `extract_test_date` (hence the demographics) may differ
across a year boundary. -/
theorem C9_determinism_amended (cy₁ cy₂ : Nat) (text : String) :
    (extract_patient_demographics cy₁ text).age
      = (extract_patient_demographics cy₂ text).age ∧
    (extract_patient_demographics cy₁ text).sex
      = (extract_patient_demographics cy₂ text).sex ∧
    (extract_patient_demographics cy₁ text).testDate = extract_test_date cy₁ text :=
  ⟨rfl, rfl, rfl⟩

/-! ### `parse_value_with_unit` totality and failure shape (claim C7) -/

/-- C7: `parse_value_with_unit` is total by construction (the model is a Lean
function; in the source the only fallible step, `float()` of the capture, is
wrapped in `try/except` and in fact never fails because the capture group is
always a float literal).  When no pattern matches the cleaned text it returns
`(absent, absent)`, and it never returns a half-populated pair: a value is
present exactly when a unit label is. -/
theorem C7_parse_value_failure_shape (t : String) :
    (firstPatternValue (removeCommas (stripChars t.data)) = none →
      parse_value_with_unit t = (none, none)) ∧
    (parse_value_with_unit t).1.isSome = (parse_value_with_unit t).2.isSome := by
  unfold parse_value_with_unit parseValueCore
  cases h : firstPatternValue (removeCommas (stripChars t.data)) with
  | none => exact ⟨fun _ => rfl, rfl⟩
  | some v =>
    refine ⟨fun hc => ?_, ?_⟩
    · exact Option.noConfusion hc
    · dsimp only
      split_ifs <;> rfl

/-- C7 witness at a concrete input with no numeric pattern. -/
theorem C7_parse_value_witness : parse_value_with_unit "panel" = (none, none) :=
  (C7_parse_value_failure_shape "panel").1 (by decide)

/-! ### Comma removal in `parse_value_with_unit` (claims C2 and C10) -/

/-- C2 counterexample: the text "x10 2 cells/µL" contains "2 cells/µL"
(the value 2 immediately followed by the cells-per-microliter unit), yet
`parse_value_with_unit` returns 2000, not 2: the unit-resolution step scans
the *whole* cleaned text for "x10"-family markers before looking for "/µL",
so the stray "x10" forces a ×1000 conversion of the captured 2.  (⟨2000, 0⟩
denotes the decimal 2000, as the `toRat` conjunct states.) -/
theorem C2_counterexample :
    containsSub ("2 cells/µL").data ("x10 2 cells/µL").data = true ∧
    parse_value_with_unit "x10 2 cells/µL" = (some ⟨2000, 0⟩, some "x10³/L") ∧
    (Dec.mk 2000 0).toRat = 2000 ∧ (Dec.mk 2000 0) ≠ ⟨2, 0⟩ := by
  refine ⟨by decide, by decide, ?_, by decide⟩
  norm_num [Dec.toRat]

theorem removeCommas_removeCommas (l : Chars) :
    removeCommas (removeCommas l) = removeCommas l := by
  unfold removeCommas
  rw [List.filter_filter]
  congr 1
  funext c
  cases h : decide (c ≠ ',') <;> simp [h]

/-- C10 amended: `parse_value_with_unit` cleans its input by stripping
whitespace *first* and deleting commas *second*, so deleting all commas in
advance is invariant exactly when comma deletion commutes with stripping on
the given text — which fails only when removing a comma exposes new leading
or trailing whitespace (counterexample "5 ,": the function parses nothing,
while on the pre-deleted "5 " it returns 5000).  Under that commutation
hypothesis the results agree; and all commas are deleted, not only thousands
separators: "4,2" is parsed exactly like "42" (giving 42 × 1000 with the
assumed unit). -/
theorem C10_comma_invariance_amended (t : String)
    (h : removeCommas (stripChars t.data) = stripChars (removeCommas t.data)) :
    parse_value_with_unit t = parse_value_with_unit (removeCommasStr t) ∧
    parse_value_with_unit "4,2" = parse_value_with_unit "42" := by
  constructor
  · show parseValueCore (removeCommas (stripChars t.data))
      = parseValueCore (removeCommas (stripChars (removeCommas t.data)))
    rw [← h, removeCommas_removeCommas]
  · decide

/-- C10 counterexample: deleting the comma of "5 ," first changes the result
(the function's own cleaning strips before deleting commas, so the trailing
space survives in one case and not the other). -/
theorem C10_counterexample :
    parse_value_with_unit "5 ," = (none, none) ∧
    parse_value_with_unit (removeCommasStr "5 ,")
      = (some ⟨5000, 0⟩, some "x10³/L (assumed)") ∧
    parse_value_with_unit "5 ," ≠ parse_value_with_unit (removeCommasStr "5 ,") := by
  exact ⟨by decide, by decide, by decide⟩

/-- C10 witness: the amended invariance applied to "1,5 x10³/L", a text on
which stripping and comma deletion commute. -/
theorem C10_comma_invariance_witness :
    removeCommas (stripChars ("1,5 x10³/L" : String).data)
      = stripChars (removeCommas ("1,5 x10³/L" : String).data) ∧
    parse_value_with_unit "1,5 x10³/L" = parse_value_with_unit (removeCommasStr "1,5 x10³/L") :=
  ⟨by decide, (C10_comma_invariance_amended "1,5 x10³/L" (by decide)).1⟩

/-! ### Character-level lemmas for the cells/µL theorem (claim C2) -/

theorem isDigitC_elim {c : Char} (h : isDigitC c = true) :
    c = '0' ∨ c = '1' ∨ c = '2' ∨ c = '3' ∨ c = '4' ∨ c = '5' ∨ c = '6' ∨
    c = '7' ∨ c = '8' ∨ c = '9' := by
  simpa [isDigitC, List.contains] using h

theorem digit_lower_self {c : Char} (h : isDigitC c = true) : asciiLowerChar c = c := by
  rcases isDigitC_elim h with rfl|rfl|rfl|rfl|rfl|rfl|rfl|rfl|rfl|rfl <;> rfl

theorem digit_not_space {c : Char} (h : isDigitC c = true) : isPySpace c = false := by
  rcases isDigitC_elim h with rfl|rfl|rfl|rfl|rfl|rfl|rfl|rfl|rfl|rfl <;> rfl

theorem digit_not_comma {c : Char} (h : isDigitC c = true) : c ≠ ',' := by
  rcases isDigitC_elim h with rfl|rfl|rfl|rfl|rfl|rfl|rfl|rfl|rfl|rfl <;> decide

theorem digit_lower_safe {c : Char} (h : isDigitC c = true) :
    asciiLowerChar c ≠ 'x' ∧ asciiLowerChar c ≠ 'k' ∧ asciiLowerChar c ≠ '®' ∧
    asciiLowerChar c ≠ '©' := by
  rcases isDigitC_elim h with rfl|rfl|rfl|rfl|rfl|rfl|rfl|rfl|rfl|rfl <;> exact ⟨by decide, by decide, by decide, by decide⟩

theorem takeWhile_append_all (p : Char → Bool) :
    ∀ (l₁ l₂ : Chars), (∀ c ∈ l₁, p c = true) →
      (l₁ ++ l₂).takeWhile p = l₁ ++ l₂.takeWhile p := by
  intro l₁
  induction l₁ with
  | nil => intro l₂ _; rfl
  | cons a t ih =>
    intro l₂ h
    have ha := h a (List.mem_cons_self _ _)
    simp only [List.cons_append, List.takeWhile_cons, ha, if_true]
    rw [ih l₂ (fun c hc => h c (List.mem_cons_of_mem _ hc))]

theorem dropWhile_append_all (p : Char → Bool) :
    ∀ (l₁ l₂ : Chars), (∀ c ∈ l₁, p c = true) →
      (l₁ ++ l₂).dropWhile p = l₂.dropWhile p := by
  intro l₁
  induction l₁ with
  | nil => intro l₂ _; rfl
  | cons a t ih =>
    intro l₂ h
    have ha := h a (List.mem_cons_self _ _)
    simp only [List.cons_append, List.dropWhile_cons, ha, if_true]
    exact ih l₂ (fun c hc => h c (List.mem_cons_of_mem _ hc))

theorem mem_dropWhile (p : Char → Bool) :
    ∀ (l : Chars), ∀ c ∈ l.dropWhile p, c ∈ l := by
  intro l
  induction l with
  | nil => intro c hc; exact absurd hc (by simp)
  | cons a t ih =>
    intro c hc
    rw [List.dropWhile_cons] at hc
    by_cases hpa : p a = true
    · simp only [hpa, if_true] at hc
      exact List.mem_cons_of_mem _ (ih c hc)
    · simp only [Bool.not_eq_true] at hpa
      simp only [hpa, Bool.false_eq_true, if_false] at hc
      exact hc

theorem matchNumber_rest_subset {s r : Chars} {v : Dec}
    (h : matchNumber s = some (v, r)) : ∀ c ∈ r, c ∈ s := by
  intro c hc
  unfold matchNumber at h
  by_cases he : (s.takeWhile isDigitC).isEmpty
  · simp [he] at h
  · simp only [he, Bool.false_eq_true, if_false] at h
    split at h
    case _ r2 heq =>
      simp only [Option.some.injEq, Prod.mk.injEq] at h
      rw [← h.2] at hc
      have h1 : c ∈ r2 := mem_dropWhile isDigitC r2 c hc
      have h2 : c ∈ s.dropWhile isDigitC := by
        rw [heq]
        exact List.mem_cons_of_mem _ h1
      exact mem_dropWhile isDigitC s c h2
    case _ =>
      simp only [Option.some.injEq, Prod.mk.injEq] at h
      rw [← h.2] at hc
      exact mem_dropWhile isDigitC s c hc

theorem chCI_x_none {s : Chars} (h : ∀ c ∈ s, asciiLowerChar c ≠ 'x') :
    chCI 'x' s = none := by
  cases s with
  | nil => rfl
  | cons a r =>
    unfold chCI
    have ha := h a (List.mem_cons_self _ _)
    simp only [show asciiLowerChar 'x' = 'x' from rfl]
    rw [if_neg ha]

theorem pX_none (tail : Chars → Option Chars) {s : Chars}
    (h : ∀ c ∈ s, asciiLowerChar c ≠ 'x') : pX tail s = none := by
  unfold pX
  cases hmn : matchNumber s with
  | none => rfl
  | some p =>
    obtain ⟨v, s1⟩ := p
    have hsub := matchNumber_rest_subset (r := s1) (v := v) hmn
    have hx : chCI 'x' (skipSpaces s1) = none := by
      apply chCI_x_none
      intro c hc
      exact h c (hsub c (mem_dropWhile isPySpace s1 c hc))
    show (match chCI 'x' (skipSpaces s1) with
          | none => none
          | some s2 => Option.map (fun r => (v, r)) (tail s2)) = none
    rw [hx]

theorem searchFor_pX_none (tail : Chars → Option Chars) :
    ∀ (s : Chars), (∀ c ∈ s, asciiLowerChar c ≠ 'x') →
      searchFor (pX tail) s = none := by
  intro s
  induction s with
  | nil =>
    intro h
    show ((pX tail []).map (fun p => p.1)) = none
    rw [pX_none tail h]
    rfl
  | cons a t ih =>
    intro h
    show (match pX tail (a :: t) with
          | some (v, _) => some v
          | none => searchFor (pX tail) t) = none
    rw [pX_none tail h]
    exact ih (fun c hc => h c (List.mem_cons_of_mem _ hc))

theorem pCells_digits (d : Char) (ds' : Chars)
    (hdig : ∀ c ∈ d :: ds', isDigitC c = true) :
    pCells ((d :: ds') ++ (" cells/µL").data) = some (numVal (d :: ds') [], []) := by
  have htake : ((d :: ds') ++ (" cells/µL").data).takeWhile isDigitC = d :: ds' := by
    rw [takeWhile_append_all isDigitC (d :: ds') _ hdig]
    rw [show (" cells/µL").data.takeWhile isDigitC = [] by decide]
    exact List.append_nil _
  have hdrop : ((d :: ds') ++ (" cells/µL").data).dropWhile isDigitC = (" cells/µL").data := by
    rw [dropWhile_append_all isDigitC (d :: ds') _ hdig]
    decide
  have hmn : matchNumber ((d :: ds') ++ (" cells/µL").data) = some (numVal (d :: ds') [], (" cells/µL").data) := by
    unfold matchNumber
    rw [htake, hdrop]
    rfl
  unfold pCells
  rw [hmn]
  rfl

theorem searchFor_pCells_digits (d : Char) (ds' : Chars)
    (hdig : ∀ c ∈ d :: ds', isDigitC c = true) :
    searchFor pCells ((d :: ds') ++ (" cells/µL").data) = some (numVal (d :: ds') []) := by
  show (match pCells ((d :: ds') ++ (" cells/µL").data) with
        | some (v, _) => some v
        | none => searchFor pCells (ds' ++ (" cells/µL").data)) = _
  rw [pCells_digits d ds' hdig]

theorem leadsWith_subset :
    ∀ (n l : Chars), leadsWith n l = true → ∀ c ∈ n, c ∈ l := by
  intro n
  induction n with
  | nil => intro l _ c hc; exact absurd hc (by simp)
  | cons a n' ih =>
    intro l h c hc
    cases l with
    | nil => exact absurd h (by simp [leadsWith])
    | cons b l' =>
      unfold leadsWith at h
      rw [Bool.and_eq_true, beq_iff_eq] at h
      rcases List.mem_cons.mp hc with rfl | hmem
      · rw [h.1]
        exact List.mem_cons_self _ _
      · exact List.mem_cons_of_mem _ (ih l' h.2 c hmem)

theorem no_char_no_sub {c₀ : Char} {n : Chars} (hc : c₀ ∈ n) :
    ∀ (l : Chars), (∀ c ∈ l, c ≠ c₀) → containsSub n l = false := by
  intro l
  induction l with
  | nil =>
    intro _
    unfold containsSub
    cases n with
    | nil => exact absurd hc (by simp)
    | cons a t => rfl
  | cons a t ih =>
    intro h
    unfold containsSub
    rw [Bool.or_eq_false_iff]
    constructor
    · cases hl : leadsWith n (a :: t) with
      | false => rfl
      | true =>
        exact absurd rfl (h c₀ (leadsWith_subset n (a :: t) hl c₀ hc))
    · exact ih (fun c hcm => h c (List.mem_cons_of_mem _ hcm))

theorem containsSub_append_right {n : Chars} :
    ∀ (l₁ l₂ : Chars), containsSub n l₂ = true → containsSub n (l₁ ++ l₂) = true := by
  intro l₁
  induction l₁ with
  | nil => intro l₂ h; exact h
  | cons a t ih =>
    intro l₂ h
    show (leadsWith n (a :: (t ++ l₂)) || containsSub n (t ++ l₂)) = true
    rw [ih l₂ h, Bool.or_true]

theorem removeCommas_eq_self :
    ∀ (l : Chars), (∀ c ∈ l, c ≠ ',') → removeCommas l = l := by
  intro l
  induction l with
  | nil => intro _; rfl
  | cons a t ih =>
    intro h
    have ha : a ≠ ',' := h a (List.mem_cons_self _ _)
    have ht := ih (fun c hc => h c (List.mem_cons_of_mem _ hc))
    unfold removeCommas at ht ⊢
    rw [List.filter_cons]
    simp [ha, ht]
    exact fun c hc => h c (List.mem_cons_of_mem _ hc)

theorem stripChars_cells (d : Char) (ds' : Chars)
    (hdig : ∀ c ∈ d :: ds', isDigitC c = true) :
    stripChars ((d :: ds') ++ (" cells/µL").data) = (d :: ds') ++ (" cells/µL").data := by
  have hd : isPySpace d = false := digit_not_space (hdig d (List.mem_cons_self _ _))
  unfold stripChars
  have h1 : ((d :: ds') ++ (" cells/µL").data).dropWhile isPySpace
      = (d :: ds') ++ (" cells/µL").data := by
    rw [List.cons_append, List.dropWhile_cons]
    simp [hd]
  rw [h1, List.reverse_append]
  have h2 : ((" cells/µL").data.reverse ++ (d :: ds').reverse).dropWhile isPySpace
      = (" cells/µL").data.reverse ++ (d :: ds').reverse := by
    rw [show (" cells/µL").data.reverse
        = 'L' :: ('µ' :: ('/' :: ('s' :: ('l' :: ('l' :: ('e' :: ('c' :: [' '])))))))
      by decide]
    rw [List.cons_append, List.dropWhile_cons]
    simp [show isPySpace 'L' = false from rfl]
  rw [h2, ← List.reverse_append, List.reverse_reverse]

theorem firstPatternValue_cells (d : Char) (ds' : Chars)
    (hdig : ∀ c ∈ d :: ds', isDigitC c = true) :
    firstPatternValue ((d :: ds') ++ (" cells/µL").data) = some (numVal (d :: ds') []) := by
  have hconc : ∀ c ∈ (" cells/µL").data, asciiLowerChar c ≠ 'x' := by decide
  have hnx : ∀ c ∈ (d :: ds') ++ (" cells/µL").data, asciiLowerChar c ≠ 'x' := by
    intro c hc
    rcases List.mem_append.mp hc with h | h
    · exact (digit_lower_safe (hdig c h)).1
    · exact hconc c h
  unfold firstPatternValue
  rw [searchFor_pX_none xiosTail _ hnx, searchFor_pX_none x10SupTail _ hnx,
      searchFor_pX_none x10C3Tail _ hnx, searchFor_pX_none x10RegTail _ hnx,
      searchFor_pCells_digits d ds' hdig]
  rfl

/-- The lowered text of the C2 family contains none of the unit markers that
force a conversion. -/
theorem cells_text_markers (d : Char) (ds' : Chars)
    (hdig : ∀ c ∈ d :: ds', isDigitC c = true) :
    hasX10Marker (lowerStr ((d :: ds') ++ (" cells/µL").data)) = false ∧
    containsSub ['k', '/'] (lowerStr ((d :: ds') ++ (" cells/µL").data)) = false ∧
    containsSub ("/µl").data (lowerStr ((d :: ds') ++ (" cells/µL").data)) = true := by
  have hconc : ∀ c ∈ lowerStr ((" cells/µL").data),
      c ≠ 'x' ∧ c ≠ 'k' ∧ c ≠ '®' ∧ c ≠ '©' := by decide
  have hsafe : ∀ c ∈ lowerStr ((d :: ds') ++ (" cells/µL").data),
      c ≠ 'x' ∧ c ≠ 'k' ∧ c ≠ '®' ∧ c ≠ '©' := by
    intro c hc
    unfold lowerStr at hc
    rw [List.map_append] at hc
    rcases List.mem_append.mp hc with h | h
    · obtain ⟨c', hc', rfl⟩ := List.mem_map.mp h
      have hl := digit_lower_safe (hdig c' hc')
      exact ⟨hl.1, hl.2.1, hl.2.2.1, hl.2.2.2⟩
    · exact hconc c h
  refine ⟨?_, ?_, ?_⟩
  · unfold hasX10Marker
    rw [no_char_no_sub (show 'x' ∈ ("x10").data by decide) _
          (fun c hc => (hsafe c hc).1),
        no_char_no_sub (show 'x' ∈ ("x 10").data by decide) _
          (fun c hc => (hsafe c hc).1),
        no_char_no_sub (show 'x' ∈ ("xio").data by decide) _
          (fun c hc => (hsafe c hc).1),
        no_char_no_sub (show 'x' ∈ ("xios").data by decide) _
          (fun c hc => (hsafe c hc).1),
        no_char_no_sub (show 'x' ∈ ("x io").data by decide) _
          (fun c hc => (hsafe c hc).1),
        no_char_no_sub (show '®' ∈ ("®").data by decide) _
          (fun c hc => (hsafe c hc).2.2.1),
        no_char_no_sub (show '©' ∈ ("©").data by decide) _
          (fun c hc => (hsafe c hc).2.2.2)]
    rfl
  · exact no_char_no_sub (show 'k' ∈ ['k', '/'] by decide) _
      (fun c hc => (hsafe c hc).2.1)
  · unfold lowerStr
    rw [List.map_append]
    exact containsSub_append_right _ _ (by decide)


theorem stripChars_cells_decimal (d : Char) (ip' fp : Chars)
    (hd : isPySpace d = false) :
    stripChars ((d :: ip') ++ ('.' :: (fp ++ (" cells/µL").data)))
      = (d :: ip') ++ ('.' :: (fp ++ (" cells/µL").data)) := by
  unfold stripChars
  have h1 : ((d :: ip') ++ ('.' :: (fp ++ (" cells/µL").data))).dropWhile isPySpace
      = (d :: ip') ++ ('.' :: (fp ++ (" cells/µL").data)) := by
    rw [List.cons_append, List.dropWhile_cons]
    simp [hd]
  rw [h1, List.reverse_append]
  have h2 : (('.' :: (fp ++ (" cells/µL").data)).reverse ++ (d :: ip').reverse).dropWhile
        isPySpace
      = ('.' :: (fp ++ (" cells/µL").data)).reverse ++ (d :: ip').reverse := by
    rw [List.reverse_cons, List.reverse_append]
    rw [show (" cells/µL").data.reverse
        = 'L' :: ('µ' :: ('/' :: ('s' :: ('l' :: ('l' :: ('e' :: ('c' :: [' '])))))))
      by decide]
    simp only [List.cons_append, List.append_assoc]
    rw [List.dropWhile_cons]
    simp [show isPySpace 'L' = false from rfl]
  rw [h2, ← List.reverse_append, List.reverse_reverse]

theorem pCells_decimal (d : Char) (ip' fp : Chars)
    (hip : ∀ c ∈ d :: ip', isDigitC c = true) (hfp : ∀ c ∈ fp, isDigitC c = true) :
    pCells ((d :: ip') ++ ('.' :: (fp ++ (" cells/µL").data)))
      = some (numVal (d :: ip') fp, []) := by
  have htake : ((d :: ip') ++ ('.' :: (fp ++ (" cells/µL").data))).takeWhile isDigitC
      = d :: ip' := by
    rw [takeWhile_append_all isDigitC (d :: ip') _ hip]
    rw [show ('.' :: (fp ++ (" cells/µL").data)).takeWhile isDigitC = [] from rfl]
    exact List.append_nil _
  have hdrop : ((d :: ip') ++ ('.' :: (fp ++ (" cells/µL").data))).dropWhile isDigitC
      = '.' :: (fp ++ (" cells/µL").data) := by
    rw [dropWhile_append_all isDigitC (d :: ip') _ hip]
    rfl
  have hfptake : (fp ++ (" cells/µL").data).takeWhile isDigitC = fp := by
    rw [takeWhile_append_all isDigitC fp _ hfp]
    rw [show ((" cells/µL").data).takeWhile isDigitC = [] by decide]
    exact List.append_nil _
  have hfpdrop : (fp ++ (" cells/µL").data).dropWhile isDigitC = (" cells/µL").data := by
    rw [dropWhile_append_all isDigitC fp _ hfp]
    decide
  have hmn : matchNumber ((d :: ip') ++ ('.' :: (fp ++ (" cells/µL").data)))
      = some (numVal (d :: ip') fp, (" cells/µL").data) := by
    unfold matchNumber
    rw [htake, hdrop]
    show some (numVal (d :: ip') ((fp ++ (" cells/µL").data).takeWhile isDigitC),
      (fp ++ (" cells/µL").data).dropWhile isDigitC) = _
    rw [hfptake, hfpdrop]
  unfold pCells
  rw [hmn]
  rfl

theorem searchFor_pCells_decimal (d : Char) (ip' fp : Chars)
    (hip : ∀ c ∈ d :: ip', isDigitC c = true) (hfp : ∀ c ∈ fp, isDigitC c = true) :
    searchFor pCells ((d :: ip') ++ ('.' :: (fp ++ (" cells/µL").data)))
      = some (numVal (d :: ip') fp) := by
  show (match pCells ((d :: ip') ++ ('.' :: (fp ++ (" cells/µL").data))) with
        | some (v, _) => some v
        | none => searchFor pCells (ip' ++ ('.' :: (fp ++ (" cells/µL").data)))) = _
  rw [pCells_decimal d ip' fp hip hfp]

theorem firstPatternValue_cells_decimal (d : Char) (ip' fp : Chars)
    (hip : ∀ c ∈ d :: ip', isDigitC c = true) (hfp : ∀ c ∈ fp, isDigitC c = true) :
    firstPatternValue ((d :: ip') ++ ('.' :: (fp ++ (" cells/µL").data)))
      = some (numVal (d :: ip') fp) := by
  have hconc : ∀ c ∈ (" cells/µL").data, asciiLowerChar c ≠ 'x' := by decide
  have hnx : ∀ c ∈ (d :: ip') ++ ('.' :: (fp ++ (" cells/µL").data)),
      asciiLowerChar c ≠ 'x' := by
    intro c hc
    rcases List.mem_append.mp hc with h | h
    · exact (digit_lower_safe (hip c h)).1
    · rcases List.mem_cons.mp h with rfl | h2
      · decide
      · rcases List.mem_append.mp h2 with h3 | h3
        · exact (digit_lower_safe (hfp c h3)).1
        · exact hconc c h3
  unfold firstPatternValue
  rw [searchFor_pX_none xiosTail _ hnx, searchFor_pX_none x10SupTail _ hnx,
      searchFor_pX_none x10C3Tail _ hnx, searchFor_pX_none x10RegTail _ hnx,
      searchFor_pCells_decimal d ip' fp hip hfp]
  rfl

/-- The lowered text of the decimal C2 family contains none of the unit
markers that force a conversion, and does contain "/µl". -/
theorem cells_text_markers_decimal (d : Char) (ip' fp : Chars)
    (hip : ∀ c ∈ d :: ip', isDigitC c = true) (hfp : ∀ c ∈ fp, isDigitC c = true) :
    hasX10Marker (lowerStr ((d :: ip') ++ ('.' :: (fp ++ (" cells/µL").data)))) = false ∧
    containsSub ['k', '/']
      (lowerStr ((d :: ip') ++ ('.' :: (fp ++ (" cells/µL").data)))) = false ∧
    containsSub ("/µl").data
      (lowerStr ((d :: ip') ++ ('.' :: (fp ++ (" cells/µL").data)))) = true := by
  have hconc : ∀ c ∈ (" cells/µL").data,
      asciiLowerChar c ≠ 'x' ∧ asciiLowerChar c ≠ 'k' ∧ asciiLowerChar c ≠ '®' ∧
        asciiLowerChar c ≠ '©' := by decide
  have hsafe : ∀ c ∈ lowerStr ((d :: ip') ++ ('.' :: (fp ++ (" cells/µL").data))),
      c ≠ 'x' ∧ c ≠ 'k' ∧ c ≠ '®' ∧ c ≠ '©' := by
    intro c hc
    obtain ⟨c', hc', rfl⟩ := List.mem_map.mp hc
    rcases List.mem_append.mp hc' with h | h
    · have hl := digit_lower_safe (hip c' h)
      exact ⟨hl.1, hl.2.1, hl.2.2.1, hl.2.2.2⟩
    · rcases List.mem_cons.mp h with rfl | h2
      · exact ⟨by decide, by decide, by decide, by decide⟩
      · rcases List.mem_append.mp h2 with h3 | h3
        · have hl := digit_lower_safe (hfp c' h3)
          exact ⟨hl.1, hl.2.1, hl.2.2.1, hl.2.2.2⟩
        · exact hconc c' h3
  refine ⟨?_, ?_, ?_⟩
  · unfold hasX10Marker
    rw [no_char_no_sub (show 'x' ∈ ("x10").data by decide) _
          (fun c hc => (hsafe c hc).1),
        no_char_no_sub (show 'x' ∈ ("x 10").data by decide) _
          (fun c hc => (hsafe c hc).1),
        no_char_no_sub (show 'x' ∈ ("xio").data by decide) _
          (fun c hc => (hsafe c hc).1),
        no_char_no_sub (show 'x' ∈ ("xios").data by decide) _
          (fun c hc => (hsafe c hc).1),
        no_char_no_sub (show 'x' ∈ ("x io").data by decide) _
          (fun c hc => (hsafe c hc).1),
        no_char_no_sub (show '®' ∈ ("®").data by decide) _
          (fun c hc => (hsafe c hc).2.2.1),
        no_char_no_sub (show '©' ∈ ("©").data by decide) _
          (fun c hc => (hsafe c hc).2.2.2)]
    rfl
  · exact no_char_no_sub (show 'k' ∈ ['k', '/'] by decide) _
      (fun c hc => (hsafe c hc).2.1)
  · unfold lowerStr
    rw [List.map_append, List.map_cons]
    apply containsSub_append_right
    rw [List.map_cons, List.map_append]
    apply containsSub_append_right [asciiLowerChar '.']
    apply containsSub_append_right
    decide

/-- C2 amended: the claim holds for texts that are exactly a numeric literal
followed by " cells/µL" — the shapes the capture group `\d+\.?\d*` accepts: a
digit string `ip`, or a digit string with a decimal part `ip.fp` (the spec's
own example "6310 cells/µL", and decimals such as "6.31 cells/µL").  In both
shapes the captured value is returned unchanged (no multiplication) with the
"cells/µL" unit label; the `toRat` conjuncts state the returned decimal's
numeric value.  For arbitrary surrounding text the claim is false — see the
counterexample, where a stray "x10" marker elsewhere in the text forces a
×1000 conversion — because the unit-resolution step looks at the whole
cleaned text, not at the matched fragment. -/
theorem C2_cells_value_unchanged_amended (ip fp : Chars) (hne : ip ≠ [])
    (hip : ∀ c ∈ ip, isDigitC c = true) (hfp : ∀ c ∈ fp, isDigitC c = true) :
    parse_value_with_unit ⟨ip ++ (" cells/µL").data⟩
      = (some ⟨digitsToNat ip, 0⟩, some "cells/µL") ∧
    parse_value_with_unit ⟨ip ++ ('.' :: (fp ++ (" cells/µL").data))⟩
      = (some (numVal ip fp), some "cells/µL") ∧
    (numVal ip fp).toRat
      = (digitsToNat ip : ℚ) + (digitsToNat fp : ℚ) / (10 : ℚ) ^ fp.length ∧
    (Dec.toRat ⟨digitsToNat ip, 0⟩) = (digitsToNat ip : ℚ) := by
  refine ⟨?_, ?_, ?_, ?_⟩
  · cases ip with
    | nil => exact absurd rfl hne
    | cons d ds' =>
      show parseValueCore (removeCommas (stripChars ((d :: ds') ++ (" cells/µL").data))) = _
      have hcomma : ∀ c ∈ (d :: ds') ++ (" cells/µL").data, c ≠ ',' := by
        intro c hc
        rcases List.mem_append.mp hc with h | h
        · exact digit_not_comma (hip c h)
        · exact (by decide : ∀ c ∈ (" cells/µL").data, c ≠ ',') c h
      rw [stripChars_cells d ds' hip, removeCommas_eq_self _ hcomma]
      unfold parseValueCore
      rw [firstPatternValue_cells d ds' hip]
      obtain ⟨hm1, hm2, hm3⟩ := cells_text_markers d ds' hip
      simp only [hm1, hm2, hm3, Bool.false_eq_true, if_false, Bool.true_or, if_true]
      rw [show numVal (d :: ds') [] = ⟨digitsToNat (d :: ds'), 0⟩ by
        simp [numVal, digitsToNat]]
  · cases ip with
    | nil => exact absurd rfl hne
    | cons d ip' =>
      show parseValueCore (removeCommas
        (stripChars ((d :: ip') ++ ('.' :: (fp ++ (" cells/µL").data))))) = _
      have hd : isPySpace d = false := digit_not_space (hip d (List.mem_cons_self _ _))
      have hcomma : ∀ c ∈ (d :: ip') ++ ('.' :: (fp ++ (" cells/µL").data)), c ≠ ',' := by
        intro c hc
        rcases List.mem_append.mp hc with h | h
        · exact digit_not_comma (hip c h)
        · rcases List.mem_cons.mp h with rfl | h2
          · decide
          · rcases List.mem_append.mp h2 with h3 | h3
            · exact digit_not_comma (hfp c h3)
            · exact (by decide : ∀ c ∈ (" cells/µL").data, c ≠ ',') c h3
      rw [stripChars_cells_decimal d ip' fp hd, removeCommas_eq_self _ hcomma]
      unfold parseValueCore
      rw [firstPatternValue_cells_decimal d ip' fp hip hfp]
      obtain ⟨hm1, hm2, hm3⟩ := cells_text_markers_decimal d ip' fp hip hfp
      simp only [hm1, hm2, hm3, Bool.false_eq_true, if_false, Bool.true_or, if_true]
  · unfold numVal Dec.toRat
    push_cast
    have h10 : ((10 : ℚ) ^ fp.length) ≠ 0 := by positivity
    field_simp
  · simp [Dec.toRat]

/-- C2 witness: the amended theorem at the concrete integer literal "6310"
and the concrete decimal literal "6.31". -/
theorem C2_cells_value_witness :
    parse_value_with_unit ⟨("6310").data ++ (" cells/µL").data⟩
      = (some ⟨digitsToNat ("6310").data, 0⟩, some "cells/µL") ∧
    parse_value_with_unit ⟨("6").data ++ ('.' :: (("31").data ++ (" cells/µL").data))⟩
      = (some (numVal ("6").data ("31").data), some "cells/µL") ∧
    digitsToNat ("6310").data = 6310 ∧
    numVal ("6").data ("31").data = ⟨631, 2⟩ :=
  ⟨(C2_cells_value_unchanged_amended ("6310").data [] (by decide) (by decide)
      (by decide)).1,
   (C2_cells_value_unchanged_amended ("6").data ("31").data (by decide) (by decide)
      (by decide)).2.1,
   by decide, by decide⟩

/-- C8 witness: the specification applied at a constant similarity function
and a one-line text, instantiated at the neutrophils entry. -/
theorem C8_extract_cbc_witness :
    (FieldResult.mk (some ⟨5, 0⟩) 95 (some "cells/µL") "neutrophils 5 /uL"
      "neutrophils" none).value.isSome = true :=
  (C8_extract_cbc_values_spec (fun _ _ => 100) "neutrophils 5 /uL").1
    "neutrophils" _ (by decide)

end ExtractPipeline
